import Mathlib

/-!
Verification development for the iac-infra repository.

The repository declares an AWS/EKS/Kubernetes stack through a provisioning
engine.  The spec describes the resource-dependency orchestrator that such a
stack relies on (graph builder, dependency resolver, apply/destroy engine,
state store, output projector); that orchestrator is delegated to the external
engine and is not part of the sources, so it is modelled here from the spec.
The value-level wiring that *is* in the sources (kubeconfig projection,
load-balancer URL exports, the IRSA trust policy) is embedded directly from
the TypeScript.
-/

/-- Resource identity: (type, logical name), as in the spec's data model. -/
abbrev RId := String × String

/-- A desired attribute value: a literal, or a reference to another
resource's output attribute (spec §9: tagged values, Literal vs Deferred). -/
inductive AttrVal where
  | lit (v : String)
  | ref (target : RId) (path : String)
deriving DecidableEq, Repr

/-- A resource declaration: type, logical name and desired attribute bag. -/
structure Decl where
  rtype : String
  name : String
  attrs : List (String × AttrVal)
deriving DecidableEq, Repr

def Decl.rid (d : Decl) : RId := (d.rtype, d.name)

/-- The dependency targets of a declaration: the targets of its references. -/
def Decl.deps (d : Decl) : List RId :=
  d.attrs.filterMap (fun a =>
    match a.2 with
    | AttrVal.ref t _ => some t
    | AttrVal.lit _ => none)

/-- First-match association-list lookup (used for resource states, snapshots
and attribute bags). -/
def lookupKV {κ ν : Type} [DecidableEq κ] (k : κ) : List (κ × ν) → Option ν
  | [] => none
  | (k₀, v) :: t => if k₀ = k then some v else lookupKV k t

/-- Node identities of a graph, in insertion order. -/
def nodeIds (g : List Decl) : List RId := g.map Decl.rid

/-- Modelled from the spec: the dependency edge set derived from references
(§2 Resource Graph Builder, §4.2).  An edge (n, m) records that n depends
on m. -/
def edgesOf : List Decl → List (RId × RId)
  | [] => []
  | d :: t => d.deps.map (fun m => (d.rid, m)) ++ edgesOf t

/-- A node is ready when it has zero unresolved in-degree: no dependency of
it is still among the remaining nodes (Kahn's algorithm, spec §4.2). -/
def readyB (edges : List (RId × RId)) (remaining : List RId) (n : RId) : Bool :=
  decide (∀ e ∈ edges, e.1 = n → ¬ e.2 ∈ remaining)

/-- A walk along dependency edges starting at a given node. -/
def walkB (edges : List (RId × RId)) : RId → List RId → Bool
  | _, [] => true
  | a, b :: t => decide ((a, b) ∈ edges) && walkB edges b t

/-- A (nonempty) dependency cycle: a walk through its nodes that returns to
its head. -/
def isCycleB (edges : List (RId × RId)) : List RId → Bool
  | [] => false
  | a :: t => walkB edges a (t ++ [a])

/-- Every list obtained by prepending one of the candidate nodes to one of
the given lists. -/
def consAll (cs : List RId) (ls : List (List RId)) : List (List RId) :=
  match cs with
  | [] => []
  | c :: t => ls.map (fun l => c :: l) ++ consAll t ls

/-- All node sequences of a given length drawn from the candidate list. -/
def seqsOfLen (cands : List RId) : Nat → List (List RId)
  | 0 => [[]]
  | Nat.succ n => consAll cands (seqsOfLen cands n)

/-- Search for a cycle among candidate sequences of length L, L+1, ... for
the given number of attempts, so the first hit has minimal length. -/
def minCycleGo (edges : List (RId × RId)) (cands : List RId) : Nat → Nat → Option (List RId)
  | _, 0 => none
  | L, Nat.succ k =>
    match (seqsOfLen cands L).find? (isCycleB edges) with
    | some c => some c
    | none => minCycleGo edges cands (L + 1) k

/-- Modelled from the spec: the minimal cycle whose node list the CycleError
carries (§4.2) — a shortest dependency cycle, found by trying candidate
sequences over the edge sources in increasing length.  Every cycle consists
of edge sources and a shortest one has at most as many nodes as there are
edges, so the search bound is exhaustive. -/
def minimalCycle (edges : List (RId × RId)) : Option (List RId) :=
  minCycleGo edges (edges.map Prod.fst) 1 (edges.length + 1)

/-- Modelled from the spec: one level of Kahn's algorithm with explicit fuel
(§4.2) — repeatedly extract the subset of nodes with zero unresolved
in-degree as one batch, remove them, repeat; if no node is ready while nodes
remain, fail with a CycleError carrying the minimal cycle's node list. -/
def kahnAux (edges : List (RId × RId)) : Nat → List RId → Except (List RId) (List (List RId))
  | _, [] => Except.ok []
  | 0, r@(_ :: _) => Except.error r
  | Nat.succ fuel, r@(_ :: _) =>
    let batch := r.filter (readyB edges r)
    if batch.isEmpty then Except.error ((minimalCycle edges).getD r)
    else
      match kahnAux edges fuel (r.filter (fun n => decide (¬ n ∈ batch))) with
      | Except.ok bs => Except.ok (batch :: bs)
      | Except.error c => Except.error c

/-- Modelled from the spec: `computePlan(graph) -> ExecutionPlan | CycleError`
(§4.2), by Kahn's algorithm over the edge set, stable by insertion order. -/
def computePlan (g : List Decl) : Except (List RId) (List (List RId)) :=
  kahnAux (edgesOf g) (nodeIds g).length (nodeIds g)

/-- Modelled from the spec: the destroy plan walks the apply plan backwards,
batch order inverted and node order within a batch reversed (§4.2). -/
def destroyPlan (g : List Decl) : Except (List RId) (List (List RId)) :=
  match computePlan g with
  | Except.ok bs => Except.ok (bs.foldl (fun acc b => b.reverse :: acc) [])
  | Except.error c => Except.error c

/-- The claim's reverse of a plan: batches reversed, each batch reversed. -/
def reversePlan (bs : List (List RId)) : List (List RId) :=
  (bs.map List.reverse).reverse

/-- All nodes of a plan, in batch order. -/
def allNodes : List (List RId) → List RId
  | [] => []
  | b :: t => b ++ allNodes t

/-- Index of the first batch containing a node. -/
def batchIdx : List (List RId) → RId → Nat
  | [], _ => 0
  | b :: t, n => if n ∈ b then 0 else batchIdx t n + 1

/-- The graph contains a cycle (spec §4.2, §8). -/
def hasCycle (edges : List (RId × RId)) : Prop :=
  ∃ l, isCycleB edges l = true

/-- Direct or transitive dependency between two resources. -/
inductive DepPath (edges : List (RId × RId)) : RId → RId → Prop where
  | single {a b : RId} : (a, b) ∈ edges → DepPath edges a b
  | cons {a b c : RId} : (a, b) ∈ edges → DepPath edges b c → DepPath edges a c

/-- Every edge target is a registered node (guaranteed by the spec's
`addReference`, which rejects unknown endpoints with UnknownResourceError). -/
def WfTargets (g : List Decl) : Prop :=
  ∀ e ∈ edgesOf g, e.2 ∈ nodeIds g

instance : DecidablePred (WfTargets) := fun g =>
  inferInstanceAs (Decidable (∀ e ∈ edgesOf g, e.2 ∈ nodeIds g))

/-- Lifecycle terminal state of a resource after a run (spec §3, §4.3).
`applied` records the resolved attribute bag sent to the provider and the
output bag the provider returned. -/
inductive RState where
  | applied (resolved : List (String × String)) (outs : List (String × String))
  | failed
  | skipped
deriving DecidableEq, Repr

def isAppliedSt : Option RState → Bool
  | some (RState.applied _ _) => true
  | _ => false

/-- Modelled from the spec: reference resolution against already-applied
outputs (§4.5 Output Projector); a reference resolves only when its target
is Applied. -/
def resolveVal (res : List (RId × RState)) : AttrVal → Option String
  | AttrVal.lit v => some v
  | AttrVal.ref t p =>
    match lookupKV t res with
    | some (RState.applied _ outs) => lookupKV p outs
    | _ => none

def resolveAttrs (res : List (RId × RState)) : List (String × AttrVal) → Option (List (String × String))
  | [] => some []
  | (k, v) :: t =>
    match resolveVal res v, resolveAttrs res t with
    | some s, some r => some ((k, s) :: r)
    | _, _ => none

/-- A provider: `apply(resourceType, name, attributes) -> outputs | Error`
(spec §6). -/
abbrev Provider := String → String → List (String × String) → Except String (List (String × String))

/-- Modelled from the spec: the apply step for one node (§4.3) — if any
dependency is not Applied the node is marked Skipped; otherwise its
references are resolved and the provider invoked, giving Applied on success
and Failed on error. -/
def applyNode (provider : Provider) (res : List (RId × RState)) (d : Decl) : RState :=
  if d.deps.all (fun m => isAppliedSt (lookupKV m res)) then
    match resolveAttrs res d.attrs with
    | some ra =>
      match provider d.rtype d.name ra with
      | Except.ok outs => RState.applied ra outs
      | Except.error _ => RState.failed
    | none => RState.failed
  else RState.skipped

def findDecl (g : List Decl) (n : RId) : Option Decl :=
  g.find? (fun d => decide (d.rid = n))

def execNode (g : List Decl) (provider : Provider) (res : List (RId × RState)) (n : RId) : List (RId × RState) :=
  match findDecl g n with
  | some d => res ++ [(n, applyNode provider res d)]
  | none => res

def execBatch (g : List Decl) (provider : Provider) (res : List (RId × RState)) (b : List RId) : List (RId × RState) :=
  b.foldl (execNode g provider) res

def execPlan (g : List Decl) (provider : Provider) (res : List (RId × RState)) (plan : List (List RId)) : List (RId × RState) :=
  plan.foldl (execBatch g provider) res

/-- Modelled from the spec: `execute(plan, provider)` (§4.3) — batches run in
order; each node resolves its references against already-applied outputs and
transitions to Applied, Failed, or Skipped; the run ends with a full report
of terminal states. -/
def execute (g : List Decl) (provider : Provider) : Except (List RId) (List (RId × RState)) :=
  (computePlan g).map (execPlan g provider [])

/-- Modelled from the spec: `addResource(type, name, attributes)` registers a
node and fails with DuplicateResourceError if (type, name) is already
registered in this run (§4.1). -/
def addResource (g : List Decl) (ty nm : String) (attrs : List (String × AttrVal)) : Except String (List Decl) :=
  if decide ((ty, nm) ∈ nodeIds g) then Except.error "DuplicateResourceError"
  else Except.ok (g ++ [⟨ty, nm, attrs⟩])

/-- Register a whole declaration list in order, stopping at the first error. -/
def registerAll (l : List (RId × List (String × AttrVal))) : Except String (List Decl) :=
  l.foldlM (fun g d => addResource g d.1.1 d.1.2 d.2) []

/-- Diff classification of a declared resource against the previous snapshot
(spec §4.4). -/
inductive DiffClass where
  | unchanged
  | changed
  | fresh
  | removed
deriving DecidableEq, Repr

/-- One snapshot entry: identity, last-applied attributes, cached outputs
(spec §6 state snapshot format). -/
structure SnapEntry where
  sid : RId
  sattrs : List (String × AttrVal)
  souts : List (String × String)
deriving DecidableEq, Repr

/-- Modelled from the spec: diffing a declaration against the previous
snapshot (§4.4) — unchanged when identity and attributes match, changed when
only the attributes differ, new (fresh) when absent from the snapshot. -/
def classify (snap : List SnapEntry) (d : Decl) : DiffClass :=
  match snap.find? (fun e => decide (e.sid = d.rid)) with
  | some e => if e.sattrs = d.attrs then DiffClass.unchanged else DiffClass.changed
  | none => DiffClass.fresh

def cachedOuts (snap : List SnapEntry) (n : RId) : List (String × String) :=
  match snap.find? (fun e => decide (e.sid = n)) with
  | some e => e.souts
  | none => []

/-- Snapshot entries of resources removed from the declarations; each is
scheduled for a provider destroy call (spec §4.4). -/
def removedEntries (snap : List SnapEntry) (decls : List Decl) : List SnapEntry :=
  snap.filter (fun e => decide (∀ d ∈ decls, ¬ d.rid = e.sid))

/-- Modelled from the spec: an apply run driven by the diff (§4.4) — an
unchanged resource skips its apply and reuses cached outputs; changed and new
resources invoke the provider; removed resources each cost one destroy call.
Returns the output bag per declared resource and the total number of
provider apply/destroy calls. -/
def runDiffApply (snap : List SnapEntry) (provider : String → String → List (String × AttrVal) → List (String × String)) (decls : List Decl) : List (RId × List (String × String)) × Nat :=
  let applied := decls.foldl
    (fun acc d =>
      match classify snap d with
      | DiffClass.unchanged => (acc.1 ++ [(d.rid, cachedOuts snap d.rid)], acc.2)
      | _ => (acc.1 ++ [(d.rid, provider d.rtype d.name d.attrs)], acc.2 + 1))
    ([], 0)
  (applied.1, applied.2 + (removedEntries snap decls).length)

/-- The snapshot recording exactly the given declaration set with the given
cached outputs. -/
def mkSnapshot (decls : List Decl) (outs : RId → List (String × String)) : List SnapEntry :=
  decls.map (fun d => ⟨d.rid, d.attrs, outs d.rid⟩)

/-- A pulumi Output in a run: resolved to a value, or still pending. -/
abbrev OutV (α : Type) := Option α

/-- The `.apply` combinator on outputs (src/index.ts, `kubeconfig.apply`). -/
def outApply {α β : Type} (o : OutV α) (f : α → β) : OutV β := o.map f

/-- The `pulumi.all` combinator on three outputs (src/index.ts line 125):
resolved exactly when all three constituents are resolved. -/
def pulumiAll3 {α β γ : Type} (a : OutV α) (b : OutV β) (c : OutV γ) : OutV (α × β × γ) :=
  match a, b, c with
  | some x, some y, some z => some (x, y, z)
  | _, _, _ => none

/-- The cluster's certificateAuthority output (only its data field is
used). -/
structure CertAuth where
  data : String
deriving DecidableEq, Repr

/-- The three cluster outputs the kubeconfig is built from
(src/index.ts line 125). -/
structure ClusterOutputs where
  endpoint : OutV String
  certificateAuthority : OutV CertAuth
  name : OutV String

/-- One cluster entry of the kubeconfig document (src/index.ts 128-136). -/
structure KCCluster where
  server : String
  certificateAuthorityData : String
  cname : String
deriving DecidableEq, Repr

/-- One context entry (src/index.ts 137-142). -/
structure KCContext where
  cluster : String
  user : String
  cname : String
deriving DecidableEq, Repr

/-- The exec credential block (src/index.ts 149-153). -/
structure KCExec where
  apiVersion : String
  command : String
  args : List String
deriving DecidableEq, Repr

/-- One user entry (src/index.ts 145-156). -/
structure KCUser where
  uname : String
  exec : KCExec
deriving DecidableEq, Repr

/-- The kubeconfig document object (src/index.ts 126-157). -/
structure Kubeconfig where
  apiVersion : String
  clusters : List KCCluster
  contexts : List KCContext
  currentContext : String
  kind : String
  users : List KCUser
deriving DecidableEq, Repr

/-- The pure kubeconfig template: the body of the lambda passed to `.apply`
in src/index.ts 126-157, a function of the cluster endpoint, the certificate
authority data and the cluster name. -/
def kubeconfigDoc (endpoint certData cname : String) : Kubeconfig :=
  ⟨"v1",
   [⟨endpoint, certData, "kubernetes"⟩],
   [⟨"kubernetes", "aws", "aws"⟩],
   "aws",
   "Config",
   [⟨"aws", ⟨"client.authentication.k8s.io/v1beta1", "aws",
     ["eks", "get-token", "--cluster-name", cname]⟩⟩]⟩

/-- The kubeconfig output of src/index.ts 125-158:
`pulumi.all([cluster.endpoint, cluster.certificateAuthority, cluster.name]).apply(...)`. -/
def kubeconfig (c : ClusterOutputs) : OutV Kubeconfig :=
  outApply (pulumiAll3 c.endpoint c.certificateAuthority c.name)
    (fun v => kubeconfigDoc v.1 v.2.1.data v.2.2)

/-- The exported output `kubeconfigOut` (src/index.ts line 263). -/
def kubeconfigOut (c : ClusterOutputs) : OutV Kubeconfig := kubeconfig c

/-- Hexadecimal digit for JSON control-character escapes. -/
def hexDigit (n : Nat) : Char :=
  if n < 10 then Char.ofNat (48 + n) else Char.ofNat (87 + n)

/-- JSON escaping of one character, as JSON.stringify performs it. -/
def jsEscapeChar (ch : Char) : String :=
  if ch = '"' then "\\\""
  else if ch = '\\' then "\\\\"
  else if ch = Char.ofNat 8 then "\\b"
  else if ch = Char.ofNat 9 then "\\t"
  else if ch = Char.ofNat 10 then "\\n"
  else if ch = Char.ofNat 12 then "\\f"
  else if ch = Char.ofNat 13 then "\\r"
  else if ch.toNat < 32 then
    String.mk ['\\', 'u', '0', '0', hexDigit (ch.toNat / 16), hexDigit (ch.toNat % 16)]
  else String.mk [ch]

/-- A JSON string literal, as JSON.stringify renders it. -/
def jsonStr (s : String) : String :=
  "\"" ++ String.join (s.data.map jsEscapeChar) ++ "\""

def jsonStrList (l : List String) : String :=
  "[" ++ String.intercalate "," (l.map jsonStr) ++ "]"

/-- JSON.stringify of the kubeconfig document, with JS object-key insertion
order (src/index.ts line 161). -/
def kcToJson (k : Kubeconfig) : String :=
  "\x7b" ++ jsonStr "apiVersion" ++ ":" ++ jsonStr k.apiVersion ++ "," ++
  jsonStr "clusters" ++ ":[" ++
    String.intercalate "," (k.clusters.map (fun c =>
      "\x7b" ++ jsonStr "cluster" ++ ":\x7b" ++
        jsonStr "server" ++ ":" ++ jsonStr c.server ++ "," ++
        jsonStr "certificate-authority-data" ++ ":" ++ jsonStr c.certificateAuthorityData ++
      "\x7d," ++ jsonStr "name" ++ ":" ++ jsonStr c.cname ++ "\x7d")) ++ "]," ++
  jsonStr "contexts" ++ ":[" ++
    String.intercalate "," (k.contexts.map (fun c =>
      "\x7b" ++ jsonStr "context" ++ ":\x7b" ++
        jsonStr "cluster" ++ ":" ++ jsonStr c.cluster ++ "," ++
        jsonStr "user" ++ ":" ++ jsonStr c.user ++
      "\x7d," ++ jsonStr "name" ++ ":" ++ jsonStr c.cname ++ "\x7d")) ++ "]," ++
  jsonStr "current-context" ++ ":" ++ jsonStr k.currentContext ++ "," ++
  jsonStr "kind" ++ ":" ++ jsonStr k.kind ++ "," ++
  jsonStr "users" ++ ":[" ++
    String.intercalate "," (k.users.map (fun u =>
      "\x7b" ++ jsonStr "name" ++ ":" ++ jsonStr u.uname ++ "," ++
      jsonStr "user" ++ ":\x7b" ++ jsonStr "exec" ++ ":\x7b" ++
        jsonStr "apiVersion" ++ ":" ++ jsonStr u.exec.apiVersion ++ "," ++
        jsonStr "command" ++ ":" ++ jsonStr u.exec.command ++ "," ++
        jsonStr "args" ++ ":" ++ jsonStrList u.exec.args ++
      "\x7d\x7d\x7d")) ++ "]\x7d"

/-- The kubeconfig input of the k8s provider (src/index.ts 160-162):
`kubeconfig.apply(JSON.stringify)`. -/
def k8sProviderKubeconfig (c : ClusterOutputs) : OutV String :=
  outApply (kubeconfig c) kcToJson

/-- One load-balancer ingress entry; its hostname may be undefined. -/
structure IngressEntry where
  hostname : Option String
deriving DecidableEq, Repr

/-- A service's `status.loadBalancer.ingress` value: undefined, or a list of
entries. -/
abbrev IngressStatus := Option (List IngressEntry)

/-- The backend URL export (src/index.ts 269-271):
`ingress && ingress[0]?.hostname ? http://host:5050 : "pending..."`.
JS truthiness makes an undefined list, a missing first entry, an undefined
hostname and an empty-string hostname all fall to the pending branch. -/
def backEndUrl (ing : IngressStatus) : String :=
  match ing with
  | some (e :: _) =>
    match e.hostname with
    | some h => if h = "" then "pending..." else "http://" ++ h ++ ":5050"
    | none => "pending..."
  | _ => "pending..."

/-- The API URL injected into the frontend container (src/index.ts 211-213);
same condition as `backEndUrl` but the fallback is the empty string. -/
def apiUrl (ing : IngressStatus) : String :=
  match ing with
  | some (e :: _) =>
    match e.hostname with
    | some h => if h = "" then "" else "http://" ++ h ++ ":5050"
    | none => ""
  | _ => ""

/-- The frontend URL export (src/index.ts 273-275, src/unnamed/part_000
224-229): no port suffix. -/
def frontEndUrl (ing : IngressStatus) : String :=
  match ing with
  | some (e :: _) =>
    match e.hostname with
    | some h => if h = "" then "pending..." else "http://" ++ h
    | none => "pending..."
  | _ => "pending..."

/-- Leading-subsequence test on character lists. -/
def leadsL : List Char → List Char → Bool
  | [], _ => true
  | _ :: _, [] => false
  | a :: as, b :: bs => decide (a = b) && leadsL as bs

/-- Split a character list at the first occurrence of a pattern, returning
the part before it and the part after it. -/
def splitFirst (pat : List Char) : List Char → Option (List Char × List Char)
  | [] => if pat = [] then some ([], []) else none
  | c :: cs =>
    if leadsL pat (c :: cs) then some ([], (c :: cs).drop pat.length)
    else
      match splitFirst pat cs with
      | some (pre, post) => some (c :: pre, post)
      | none => none

/-- JavaScript `String.replace` with a string pattern: replaces only the
first occurrence of the pattern, leaving the string unchanged if the pattern
does not occur (src/unnamed/part_001 line 165). -/
def jsReplaceFirst (s pat rep : String) : String :=
  match splitFirst pat.data s.data with
  | some (pre, post) => String.mk pre ++ rep ++ String.mk post
  | none => s

/-- One statement of an IAM trust policy, with the fields the IRSA variant
produces. -/
structure TrustStatement where
  effect : String
  principalFederated : String
  action : String
  conditionStringEquals : List (String × String)
deriving DecidableEq, Repr

/-- The assume-role policy document. -/
structure TrustPolicy where
  version : String
  statement : List TrustStatement
deriving DecidableEq, Repr

/-- The appConfigRole assume-role policy of the IRSA variant
(src/unnamed/part_001 154-173), as a function of the resolved OIDC provider
url and arn. -/
def appConfigAssumeRolePolicy (url arn : String) : TrustPolicy :=
  ⟨"2012-10-17",
   [⟨"Allow", arn, "sts:AssumeRoleWithWebIdentity",
     [(jsReplaceFirst url "https://" "" ++ ":sub",
       "system:serviceaccount:default:hello-pulumi-app-sa")]⟩]⟩

/-- Removal of the literal leading substring "https://" when the url starts
with it, and the identity otherwise: the reading of the claim's words
"u with the https:// prefix removed", stated independently of the source's
`String.replace`. -/
def httpsPrefixStripped (u : String) : String :=
  if leadsL "https://".data u.data then String.mk (u.data.drop 8) else u

/-- The trust policy the claim describes, using prefix removal for the
condition key. -/
def claimedIrsaPolicy (url arn : String) : TrustPolicy :=
  ⟨"2012-10-17",
   [⟨"Allow", arn, "sts:AssumeRoleWithWebIdentity",
     [(httpsPrefixStripped url ++ ":sub",
       "system:serviceaccount:default:hello-pulumi-app-sa")]⟩]⟩

/-- The vpc declaration of src/index.ts 9-13. -/
def vpcDecl : Decl :=
  ⟨"aws.ec2.Vpc", "my-vpc",
   [("cidrBlock", AttrVal.lit "10.0.0.0/16"),
    ("enableDnsHostnames", AttrVal.lit "true"),
    ("enableDnsSupport", AttrVal.lit "true")]⟩

/-- The subnet declaration of src/index.ts 15-20; its vpcId is a reference
to the vpc's id output. -/
def subnet1Decl : Decl :=
  ⟨"aws.ec2.Subnet", "my-subnet-1",
   [("vpcId", AttrVal.ref ("aws.ec2.Vpc", "my-vpc") "id"),
    ("cidrBlock", AttrVal.lit "10.0.1.0/24"),
    ("availabilityZone", AttrVal.lit "us-east-1a"),
    ("mapPublicIpOnLaunch", AttrVal.lit "true")]⟩

/-- The vpc-and-subnet declaration set of the spec scenario. -/
def vpcSubnetGraph : List Decl := [vpcDecl, subnet1Decl]

/-- The literal attributes of the vpc, as resolved (all literals). -/
def vpcResolvedAttrs : List (String × String) :=
  [("cidrBlock", "10.0.0.0/16"),
   ("enableDnsHostnames", "true"),
   ("enableDnsSupport", "true")]

/-- A provider built from a total output function: apply always succeeds. -/
def okProvider (outFn : String → String → List (String × String) → List (String × String)) : Provider :=
  fun ty nm attrs => Except.ok (outFn ty nm attrs)

/-- The two mutually referencing resources of the spec's cycle scenario:
y references x and x references y. -/
def cycleX : Decl := ⟨"res", "x", [("p", AttrVal.ref ("res", "y") "o")]⟩

def cycleY : Decl := ⟨"res", "y", [("q", AttrVal.ref ("res", "x") "o")]⟩

def cycleGraph : List Decl := [cycleX, cycleY]

/-- The three chained resources of the spec's partial-failure scenario:
b references a, c references b. -/
def declA : Decl := ⟨"res", "a", []⟩

def declB : Decl := ⟨"res", "b", [("r", AttrVal.ref ("res", "a") "o")]⟩

def declC : Decl := ⟨"res", "c", [("r", AttrVal.ref ("res", "b") "o")]⟩

def abcGraph : List Decl := [declA, declB, declC]

/-- The provider of the failure scenario: a's apply returns an error, every
other apply succeeds. -/
def abcProvider : Provider :=
  fun _ nm _ => if nm = "a" then Except.error "apply failed" else Except.ok [("o", "v")]

/-- The (type, name) identities declared by src/index.ts, in program order:
the file contains two concatenated stack revisions, and the second one
re-declares the same identities starting with (aws.ec2.Vpc, my-vpc) at line
287. -/
def indexTsResources : List (RId × List (String × AttrVal)) :=
  [(("aws.ec2.Vpc", "my-vpc"), []),
   (("aws.ec2.Subnet", "my-subnet-1"), []),
   (("aws.ec2.Subnet", "my-subnet-2"), []),
   (("aws.ec2.InternetGateway", "my-igw"), []),
   (("aws.ec2.RouteTable", "my-route-table"), []),
   (("aws.ec2.RouteTableAssociation", "rt-assoc-1"), []),
   (("aws.ec2.RouteTableAssociation", "rt-assoc-2"), []),
   (("aws.iam.Role", "clusterRole"), []),
   (("aws.iam.RolePolicyAttachment", "clusterPolicyAttach"), []),
   (("aws.iam.RolePolicyAttachment", "clusterServicePolicyAttach"), []),
   (("aws.iam.Role", "nodeRole"), []),
   (("aws.iam.RolePolicyAttachment", "nodePolicyAttach-0"), []),
   (("aws.iam.RolePolicyAttachment", "nodePolicyAttach-1"), []),
   (("aws.iam.RolePolicyAttachment", "nodePolicyAttach-2"), []),
   (("aws.ec2.SecurityGroup", "node-sg"), []),
   (("aws.ec2.SecurityGroup", "cluster-sg"), []),
   (("aws.eks.Cluster", "my-cluster"), []),
   (("aws.eks.NodeGroup", "my-node-group"), []),
   (("kubernetes.Provider", "k8s-provider"), []),
   (("kubernetes.apps.v1.Deployment", "backend-deployment"), []),
   (("kubernetes.core.v1.Service", "backend-service"), []),
   (("kubernetes.apps.v1.Deployment", "frontend-deployment"), []),
   (("kubernetes.core.v1.Service", "frontend-service"), []),
   (("aws.ec2.Vpc", "my-vpc"), []),
   (("aws.ec2.Subnet", "my-subnet-1"), []),
   (("aws.ec2.Subnet", "my-subnet-2"), []),
   (("aws.ec2.InternetGateway", "my-igw"), []),
   (("aws.ec2.RouteTable", "my-route-table"), []),
   (("aws.ec2.RouteTableAssociation", "rt-assoc-1"), []),
   (("aws.ec2.RouteTableAssociation", "rt-assoc-2"), []),
   (("aws.iam.Role", "clusterRole"), []),
   (("aws.iam.RolePolicyAttachment", "clusterPolicyAttach"), []),
   (("aws.iam.RolePolicyAttachment", "clusterServicePolicyAttach"), []),
   (("aws.iam.Role", "nodeRole"), []),
   (("aws.iam.RolePolicyAttachment", "nodePolicyAttach-0"), []),
   (("aws.iam.RolePolicyAttachment", "nodePolicyAttach-1"), []),
   (("aws.iam.RolePolicyAttachment", "nodePolicyAttach-2"), []),
   (("aws.ec2.SecurityGroup", "node-sg"), []),
   (("aws.ec2.SecurityGroup", "cluster-sg"), []),
   (("aws.eks.Cluster", "my-cluster"), []),
   (("aws.eks.NodeGroup", "my-node-group"), [])]

/-- The first hostname of a load-balancer status, when the ingress list and
its first entry exist. -/
def lbHostname (ing : IngressStatus) : Option String :=
  match ing with
  | some (e :: _) => e.hostname
  | _ => none

theorem leadsL_append (p s : List Char) : leadsL p (p ++ s) = true := by
  induction p with
  | nil => rfl
  | cons a as ih => simp [leadsL, ih]

theorem splitFirst_append (p s : List Char) : splitFirst p (p ++ s) = some ([], s) := by
  cases hps : p ++ s with
  | nil =>
    rcases List.append_eq_nil.mp hps with ⟨hp, hs⟩
    subst hp; subst hs; rfl
  | cons c cs =>
    rw [splitFirst]
    have h1 : leadsL p (c :: cs) = true := hps ▸ leadsL_append p s
    rw [if_pos h1]
    have h2 : (c :: cs).drop p.length = s := by
      rw [← hps]; exact List.drop_left p s
    rw [h2]

theorem jsReplaceFirst_leading (p rep s : String) :
    jsReplaceFirst (p ++ s) p rep = rep ++ s := by
  apply String.ext
  rw [jsReplaceFirst, String.data_append, splitFirst_append]
  simp [String.data_append]

/-- C9 counterexample: with a present but empty-string hostname, the claim
as stated promises the URL "http://" ++ "" ++ ":5050", but JS truthiness
sends the empty string to the pending branch, so the code yields
"pending..." (and the injected apiUrl is ""). -/
theorem claim_C9_counterexample :
    ¬ (backEndUrl (some [⟨some ""⟩]) = "http://" ++ "" ++ ":5050" ∧
       apiUrl (some [⟨some ""⟩]) = "http://" ++ "" ++ ":5050") := by
  decide

/-- C9 (amended): for any backend and frontend service status, when the
first ingress hostname is missing or the empty string, backEndUrl and
frontEndUrl are "pending..." and apiUrl is ""; when a nonempty hostname h is
present, backEndUrl and apiUrl are "http://" ++ h ++ ":5050" and frontEndUrl
is "http://" ++ h. -/
theorem claim_C9 (bIng fIng : IngressStatus) :
    (lbHostname bIng = none ∨ lbHostname bIng = some "" →
      backEndUrl bIng = "pending..." ∧ apiUrl bIng = "") ∧
    (lbHostname fIng = none ∨ lbHostname fIng = some "" →
      frontEndUrl fIng = "pending...") ∧
    (∀ h : String, ¬ h = "" → lbHostname bIng = some h →
      backEndUrl bIng = "http://" ++ h ++ ":5050" ∧
      apiUrl bIng = "http://" ++ h ++ ":5050") ∧
    (∀ h : String, ¬ h = "" → lbHostname fIng = some h →
      frontEndUrl fIng = "http://" ++ h) := by
  refine ⟨?_, ?_, ?_, ?_⟩
  · rintro (hb | hb) <;>
      rcases bIng with _ | ⟨_ | ⟨⟨_ | h⟩, t⟩⟩ <;>
      simp_all [lbHostname, backEndUrl, apiUrl]
  · rintro (hf | hf) <;>
      rcases fIng with _ | ⟨_ | ⟨⟨_ | h⟩, t⟩⟩ <;>
      simp_all [lbHostname, frontEndUrl]
  · intro h hne hb
    rcases bIng with _ | ⟨_ | ⟨⟨_ | h₀⟩, t⟩⟩ <;>
      simp_all [lbHostname, backEndUrl, apiUrl]
  · intro h hne hf
    rcases fIng with _ | ⟨_ | ⟨⟨_ | h₀⟩, t⟩⟩ <;>
      simp_all [lbHostname, frontEndUrl]

theorem claim_C9_witness :
    (backEndUrl (some [⟨some "lb.example.com"⟩]) = "http://lb.example.com:5050" ∧
     apiUrl (some [⟨some "lb.example.com"⟩]) = "http://lb.example.com:5050") ∧
    frontEndUrl (none : IngressStatus) = "pending..." :=
  ⟨(claim_C9 (some [⟨some "lb.example.com"⟩]) none).2.2.1 "lb.example.com"
      (by decide) rfl,
   (claim_C9 (some [⟨some "lb.example.com"⟩]) none).2.1 (Or.inl rfl)⟩

/-- C10 counterexample: the code uses JS String.replace, which removes the
first occurrence of "https://" anywhere in the url, not only a leading
prefix; for the url "ahttps://b" the produced condition key is "ab:sub"
while the claim's prefix-removal reading gives "ahttps://b:sub". -/
theorem claim_C10_counterexample :
    ¬ (appConfigAssumeRolePolicy "ahttps://b" "arn:aws:iam::1:oidc-provider/x" =
       claimedIrsaPolicy "ahttps://b" "arn:aws:iam::1:oidc-provider/x") := by
  decide

/-- C10 (amended): for every OIDC provider url u and arn a, the appConfigRole
assume-role policy has exactly one statement, whose Principal.Federated is a,
whose Action is sts:AssumeRoleWithWebIdentity and whose StringEquals
condition maps (u with the first occurrence of "https://" removed) ++ ":sub"
to the fixed service-account value; when u begins with "https://" this is
exactly the prefix removal the claim describes. -/
theorem claim_C10 (u a : String) :
    appConfigAssumeRolePolicy u a =
      ⟨"2012-10-17",
       [⟨"Allow", a, "sts:AssumeRoleWithWebIdentity",
         [(jsReplaceFirst u "https://" "" ++ ":sub",
           "system:serviceaccount:default:hello-pulumi-app-sa")]⟩]⟩ ∧
    (∀ rest : String, u = "https://" ++ rest →
      appConfigAssumeRolePolicy u a = claimedIrsaPolicy u a ∧
      (appConfigAssumeRolePolicy u a).statement =
        [⟨"Allow", a, "sts:AssumeRoleWithWebIdentity",
          [(rest ++ ":sub", "system:serviceaccount:default:hello-pulumi-app-sa")]⟩]) := by
  constructor
  · rfl
  · intro rest hu
    subst hu
    have hr : jsReplaceFirst ("https://" ++ rest) "https://" "" = rest := by
      rw [jsReplaceFirst_leading]
      apply String.ext
      simp [String.data_append]
    have hp : httpsPrefixStripped ("https://" ++ rest) = rest := by
      rw [httpsPrefixStripped, String.data_append, if_pos (leadsL_append _ _)]
      apply String.ext
      simp [List.drop_left "https://".data rest.data]
    constructor
    · rw [appConfigAssumeRolePolicy, claimedIrsaPolicy, hr, hp]
    · rw [appConfigAssumeRolePolicy, hr]

theorem claim_C10_witness :
    appConfigAssumeRolePolicy "https://oidc.eks.us-east-1.amazonaws.com/id/ABC" "arn:aws:iam::1:oidc-provider/p" =
      claimedIrsaPolicy "https://oidc.eks.us-east-1.amazonaws.com/id/ABC" "arn:aws:iam::1:oidc-provider/p" :=
  ((claim_C10 "https://oidc.eks.us-east-1.amazonaws.com/id/ABC"
      "arn:aws:iam::1:oidc-provider/p").2 "oidc.eks.us-east-1.amazonaws.com/id/ABC" (by decide)).1

/-- C7: the kubeconfig is a composite projection — it is resolved exactly
when the cluster endpoint, certificate-authority and name outputs are all
resolved; its value is then the pure template of those three values; it is
re-exposed unchanged as the kubeconfigOut export, and, JSON-serialized, as
the k8s provider's kubeconfig input. -/
theorem claim_C7 (c : ClusterOutputs) :
    ((kubeconfig c).isSome = true ↔
      (c.endpoint.isSome = true ∧ c.certificateAuthority.isSome = true ∧ c.name.isSome = true)) ∧
    (∀ (e : String) (ca : CertAuth) (n : String),
      c.endpoint = some e → c.certificateAuthority = some ca → c.name = some n →
      kubeconfig c = some (kubeconfigDoc e ca.data n)) ∧
    kubeconfigOut c = kubeconfig c ∧
    ((k8sProviderKubeconfig c).isSome = true ↔ (kubeconfig c).isSome = true) ∧
    (∀ d : Kubeconfig, kubeconfig c = some d → k8sProviderKubeconfig c = some (kcToJson d)) := by
  obtain ⟨ce, cca, cn⟩ := c
  refine ⟨?_, ?_, rfl, ?_, ?_⟩
  · cases ce <;> cases cca <;> cases cn <;>
      simp [kubeconfig, pulumiAll3, outApply]
  · intro e ca n he hca hn
    cases he; cases hca; cases hn
    rfl
  · cases ce <;> cases cca <;> cases cn <;>
      simp [kubeconfig, pulumiAll3, outApply, k8sProviderKubeconfig]
  · intro d hd
    rw [k8sProviderKubeconfig, hd]
    rfl

theorem claim_C7_witness :
    kubeconfig ⟨some "https://ep", some ⟨"certdata"⟩, some "my-cluster"⟩ =
      some (kubeconfigDoc "https://ep" "certdata" "my-cluster") :=
  (claim_C7 ⟨some "https://ep", some ⟨"certdata"⟩, some "my-cluster"⟩).2.1
    "https://ep" ⟨"certdata"⟩ "my-cluster" rfl rfl rfl

/-- C8: addResource registers the node when (type, name) is fresh and fails
with DuplicateResourceError when (type, name) is already registered; in
particular, registering every declaration of src/index.ts in program order
fails, because the file declares (aws.ec2.Vpc, my-vpc) twice. -/
theorem claim_C8 :
    (∀ (g : List Decl) (ty nm : String) (attrs : List (String × AttrVal)),
      ((ty, nm) ∈ nodeIds g →
        addResource g ty nm attrs = Except.error "DuplicateResourceError") ∧
      (¬ (ty, nm) ∈ nodeIds g →
        addResource g ty nm attrs = Except.ok (g ++ [⟨ty, nm, attrs⟩]))) ∧
    registerAll indexTsResources = Except.error "DuplicateResourceError" := by
  refine ⟨fun g ty nm attrs => ⟨fun hmem => ?_, fun hmem => ?_⟩, rfl⟩
  · rw [addResource, if_pos (decide_eq_true hmem)]
  · rw [addResource, if_neg]
    simp [hmem]

theorem claim_C8_witness :
    addResource [vpcDecl] "aws.ec2.Vpc" "my-vpc" [] = Except.error "DuplicateResourceError" ∧
    addResource [vpcDecl] "aws.ec2.Subnet" "my-subnet-1" [] =
      Except.ok [vpcDecl, ⟨"aws.ec2.Subnet", "my-subnet-1", []⟩] :=
  ⟨(claim_C8.1 [vpcDecl] "aws.ec2.Vpc" "my-vpc" []).1 (by decide),
   (claim_C8.1 [vpcDecl] "aws.ec2.Subnet" "my-subnet-1" []).2 (by decide)⟩

theorem mkSnapshot_find (decls : List Decl) (outs : RId → List (String × String))
    (d : Decl) (hnd : (nodeIds decls).Nodup) (hd : d ∈ decls) :
    (mkSnapshot decls outs).find? (fun e => decide (e.sid = d.rid)) =
      some ⟨d.rid, d.attrs, outs d.rid⟩ := by
  induction decls with
  | nil => cases hd
  | cons d₀ t ih =>
    rw [mkSnapshot, List.map_cons, List.find?]
    rcases List.mem_cons.mp hd with h | h
    · subst h
      simp
    · have hne : ¬ d₀.rid = d.rid := by
        intro heq
        have : d.rid ∈ nodeIds t := List.mem_map_of_mem Decl.rid h
        rw [← heq] at this
        exact (List.nodup_cons.mp hnd).1 this
      simp only [decide_eq_false hne]
      exact ih (List.nodup_cons.mp hnd).2 h

theorem classify_mkSnapshot (decls : List Decl) (outs : RId → List (String × String))
    (d : Decl) (hnd : (nodeIds decls).Nodup) (hd : d ∈ decls) :
    classify (mkSnapshot decls outs) d = DiffClass.unchanged ∧
    cachedOuts (mkSnapshot decls outs) d.rid = outs d.rid := by
  constructor
  · rw [classify, mkSnapshot_find decls outs d hnd hd]
    simp
  · rw [cachedOuts, mkSnapshot_find decls outs d hnd hd]

theorem runDiff_foldl (snap : List SnapEntry)
    (provider : String → String → List (String × AttrVal) → List (String × String))
    (outs : RId → List (String × String)) :
    ∀ (l : List Decl) (acc : List (RId × List (String × String)) × Nat),
      (∀ d ∈ l, classify snap d = DiffClass.unchanged ∧ cachedOuts snap d.rid = outs d.rid) →
      l.foldl
        (fun acc d =>
          match classify snap d with
          | DiffClass.unchanged => (acc.1 ++ [(d.rid, cachedOuts snap d.rid)], acc.2)
          | _ => (acc.1 ++ [(d.rid, provider d.rtype d.name d.attrs)], acc.2 + 1))
        acc =
      (acc.1 ++ l.map (fun d => (d.rid, outs d.rid)), acc.2) := by
  intro l
  induction l with
  | nil => intro acc _; simp
  | cons d t ih =>
    intro acc hall
    have hd := hall d (List.mem_cons_self d t)
    rw [List.foldl_cons, hd.1]
    have := ih (acc.1 ++ [(d.rid, cachedOuts snap d.rid)], acc.2)
      (fun x hx => hall x (List.mem_cons_of_mem d hx))
    rw [this, hd.2]
    simp

theorem removedEntries_mkSnapshot (decls : List Decl) (outs : RId → List (String × String)) :
    removedEntries (mkSnapshot decls outs) decls = [] := by
  rw [removedEntries, List.filter_eq_nil_iff]
  intro e he
  rcases List.mem_map.mp he with ⟨d, hd, hde⟩
  simp only [decide_eq_true_eq]
  intro hall
  exact hall d hd (by rw [← hde])

/-- C5: re-running apply with a declaration set identical to the loaded
snapshot classifies every resource as unchanged, performs zero provider
apply/destroy calls, and returns exactly the cached outputs. -/
theorem claim_C5 (decls : List Decl) (outs : RId → List (String × String))
    (provider : String → String → List (String × AttrVal) → List (String × String))
    (hnd : (nodeIds decls).Nodup) :
    (∀ d ∈ decls, classify (mkSnapshot decls outs) d = DiffClass.unchanged) ∧
    runDiffApply (mkSnapshot decls outs) provider decls =
      (decls.map (fun d => (d.rid, outs d.rid)), 0) := by
  have hall : ∀ d ∈ decls,
      classify (mkSnapshot decls outs) d = DiffClass.unchanged ∧
      cachedOuts (mkSnapshot decls outs) d.rid = outs d.rid :=
    fun d hd => classify_mkSnapshot decls outs d hnd hd
  refine ⟨fun d hd => (hall d hd).1, ?_⟩
  rw [runDiffApply, removedEntries_mkSnapshot]
  rw [runDiff_foldl (mkSnapshot decls outs) provider outs decls ([], 0) hall]
  simp

theorem claim_C5_witness :
    (∀ d ∈ vpcSubnetGraph,
      classify (mkSnapshot vpcSubnetGraph (fun _ => [("id", "v-1")])) d = DiffClass.unchanged) ∧
    runDiffApply (mkSnapshot vpcSubnetGraph (fun _ => [("id", "v-1")]))
      (fun _ _ _ => []) vpcSubnetGraph =
      (vpcSubnetGraph.map (fun d => (d.rid, [("id", "v-1")])), 0) :=
  claim_C5 vpcSubnetGraph (fun _ => [("id", "v-1")]) (fun _ _ _ => []) (by decide)

theorem readyB_true_iff (edges : List (RId × RId)) (r : List RId) (n : RId) :
    readyB edges r n = true ↔ ∀ e ∈ edges, e.1 = n → ¬ e.2 ∈ r := by
  rw [readyB]
  exact decide_eq_true_iff

theorem readyB_false (edges : List (RId × RId)) (r : List RId) (n : RId)
    (h : ¬ readyB edges r n = true) : ∃ e ∈ edges, e.1 = n ∧ e.2 ∈ r := by
  rw [readyB_true_iff] at h
  push_neg at h
  rcases h with ⟨e, he, h1, h2⟩
  exact ⟨e, he, h1, h2⟩

theorem batch_rest_perm (edges : List (RId × RId)) (r : List RId) :
    List.Perm
      (r.filter (readyB edges r) ++
        r.filter (fun n => decide (¬ n ∈ r.filter (readyB edges r)))) r := by
  have hcong : r.filter (fun n => decide (¬ n ∈ r.filter (readyB edges r))) =
      r.filter (fun n => !(readyB edges r n)) := by
    apply List.filter_congr
    intro x hx
    by_cases hr : readyB edges r x = true
    · simp [List.mem_filter, hx, hr]
    · simp [List.mem_filter, hx, hr]
  rw [hcong]
  exact List.filter_append_perm _ r

theorem kahnAux_perm (edges : List (RId × RId)) :
    ∀ (fuel : Nat) (r : List RId) (bs : List (List RId)),
      kahnAux edges fuel r = Except.ok bs → List.Perm (allNodes bs) r := by
  intro fuel
  induction fuel with
  | zero =>
    intro r bs h
    cases r with
    | nil =>
      simp only [kahnAux] at h
      cases h
      simp [allNodes]
    | cons a t => simp [kahnAux] at h
  | succ fuel ih =>
    intro r bs h
    cases r with
    | nil =>
      simp only [kahnAux] at h
      cases h
      simp [allNodes]
    | cons a t =>
      rw [kahnAux] at h
      by_cases hb : ((a :: t).filter (readyB edges (a :: t))).isEmpty
      · rw [if_pos hb] at h; cases h
      · rw [if_neg hb] at h
        cases hrec : kahnAux edges fuel
            ((a :: t).filter (fun n => decide (¬ n ∈ (a :: t).filter (readyB edges (a :: t))))) with
        | error c => rw [hrec] at h; cases h
        | ok bs' =>
          rw [hrec] at h
          cases h
          have h1 := ih _ bs' hrec
          have h2 : List.Perm
              ((a :: t).filter (readyB edges (a :: t)) ++ allNodes bs')
              ((a :: t).filter (readyB edges (a :: t)) ++
                (a :: t).filter (fun n => decide (¬ n ∈ (a :: t).filter (readyB edges (a :: t))))) :=
            List.Perm.append_left _ h1
          exact h2.trans (batch_rest_perm edges (a :: t))

theorem kahnAux_earlier (edges : List (RId × RId)) :
    ∀ (fuel : Nat) (r : List RId) (bs : List (List RId)),
      kahnAux edges fuel r = Except.ok bs →
      ∀ (i : Nat) (n m : RId), n ∈ bs.getD i [] → (n, m) ∈ edges → m ∈ r →
        ∃ j, j < i ∧ m ∈ bs.getD j [] := by
  intro fuel
  induction fuel with
  | zero =>
    intro r bs h
    cases r with
    | nil =>
      simp only [kahnAux] at h
      cases h
      intro i n m hn _ _
      simp at hn
    | cons a t => simp [kahnAux] at h
  | succ fuel ih =>
    intro r bs h
    cases r with
    | nil =>
      simp only [kahnAux] at h
      cases h
      intro i n m hn _ _
      simp at hn
    | cons a t =>
      rw [kahnAux] at h
      by_cases hb : ((a :: t).filter (readyB edges (a :: t))).isEmpty
      · rw [if_pos hb] at h; cases h
      · rw [if_neg hb] at h
        cases hrec : kahnAux edges fuel
            ((a :: t).filter (fun n => decide (¬ n ∈ (a :: t).filter (readyB edges (a :: t))))) with
        | error c => rw [hrec] at h; cases h
        | ok bs' =>
          rw [hrec] at h
          cases h
          intro i n m hn hnm hmr
          cases i with
          | zero =>
            exfalso
            have hready : readyB edges (a :: t) n = true :=
              (List.mem_filter.mp hn).2
            exact (readyB_true_iff edges (a :: t) n).mp hready (n, m) hnm rfl hmr
          | succ i =>
            by_cases hmb : m ∈ (a :: t).filter (readyB edges (a :: t))
            · exact ⟨0, Nat.succ_pos i, hmb⟩
            · have hmrest : m ∈ (a :: t).filter
                  (fun n => decide (¬ n ∈ (a :: t).filter (readyB edges (a :: t)))) :=
                List.mem_filter.mpr ⟨hmr, by simp [hmb]⟩
              rcases ih _ bs' hrec i n m hn hnm hmrest with ⟨j, hj, hjm⟩
              exact ⟨j + 1, Nat.succ_lt_succ hj, hjm⟩

theorem batchIdx_mem :
    ∀ (bs : List (List RId)) (n : RId), n ∈ allNodes bs → n ∈ bs.getD (batchIdx bs n) [] := by
  intro bs
  induction bs with
  | nil => intro n h; simp [allNodes] at h
  | cons b t ih =>
    intro n h
    rw [batchIdx]
    by_cases hb : n ∈ b
    · rw [if_pos hb]; exact hb
    · rw [if_neg hb]
      have hmem : n ∈ allNodes t := by
        rcases List.mem_append.mp h with h1 | h1
        · exact absurd h1 hb
        · exact h1
      exact ih n hmem

theorem batchIdx_le :
    ∀ (bs : List (List RId)) (n : RId) (j : Nat), n ∈ bs.getD j [] → batchIdx bs n ≤ j := by
  intro bs
  induction bs with
  | nil => intro n j h; simp at h
  | cons b t ih =>
    intro n j h
    cases j with
    | zero =>
      have hb : n ∈ b := h
      rw [batchIdx, if_pos hb]
    | succ j =>
      by_cases hb : n ∈ b
      · rw [batchIdx, if_pos hb]; exact Nat.zero_le _
      · rw [batchIdx, if_neg hb]
        exact Nat.succ_le_succ (ih n j h)

theorem stuck_cycle_bounded (edges : List (RId × RId)) (S : List RId) (hS : S ≠ [])
    (hstuck : ∀ n ∈ S, ¬ readyB edges S n = true) :
    ∃ c, isCycleB edges c = true ∧ c.length ≤ S.length := by
  have hnext : ∀ n ∈ S, ∃ m, (n, m) ∈ edges ∧ m ∈ S := by
    intro n hn
    rcases readyB_false edges S n (hstuck n hn) with ⟨e, he, h1, h2⟩
    refine ⟨e.2, ?_, h2⟩
    rw [← h1]
    exact he
  classical
  let f : RId → RId := fun n =>
    match edges.find? (fun e => decide (e.1 = n) && decide (e.2 ∈ S)) with
    | some e => e.2
    | none => n
  have hf : ∀ n ∈ S, (n, f n) ∈ edges ∧ f n ∈ S := by
    intro n hn
    rcases hnext n hn with ⟨m, hm, hmS⟩
    have hex : ∃ e ∈ edges, (decide (e.1 = n) && decide (e.2 ∈ S)) = true := by
      exact ⟨(n, m), hm, by simp [hmS]⟩
    have hsome : (edges.find? (fun e => decide (e.1 = n) && decide (e.2 ∈ S))).isSome = true :=
      List.find?_isSome.mpr hex
    cases hfind : edges.find? (fun e => decide (e.1 = n) && decide (e.2 ∈ S)) with
    | none => rw [hfind] at hsome; cases hsome
    | some e =>
      have hpe := List.find?_some hfind
      have he1 : e.1 = n := by
        have := (Bool.and_eq_true _ _).mp hpe
        exact of_decide_eq_true this.1
      have he2 : e.2 ∈ S := by
        have := (Bool.and_eq_true _ _).mp hpe
        exact of_decide_eq_true this.2
      have hmem : e ∈ edges := List.mem_of_find?_eq_some hfind
      have hfn : f n = e.2 := by
        show (match edges.find? (fun e => decide (e.1 = n) && decide (e.2 ∈ S)) with
          | some e => e.2
          | none => n) = e.2
        rw [hfind]
      constructor
      · rw [hfn, ← he1]
        exact hmem
      · rw [hfn]
        exact he2
  obtain ⟨a₀, S', rfl⟩ : ∃ a₀ S', S = a₀ :: S' := by
    cases S with
    | nil => exact absurd rfl hS
    | cons x xs => exact ⟨x, xs, rfl⟩
  set S := a₀ :: S' with hSdef
  let seq : Nat → RId := fun k => f^[k] a₀
  have hseqS : ∀ k, seq k ∈ S := by
    intro k
    induction k with
    | zero => exact List.mem_cons_self a₀ S'
    | succ k ihk =>
      show f^[k + 1] a₀ ∈ S
      rw [Function.iterate_succ_apply']
      exact (hf _ ihk).2
  have hstep : ∀ k, (seq k, seq (k + 1)) ∈ edges := by
    intro k
    have : seq (k + 1) = f (seq k) := Function.iterate_succ_apply' f k a₀
    rw [this]
    exact (hf _ (hseqS k)).1
  have hcard : S.toFinset.card < (Finset.range (S.length + 1)).card := by
    rw [Finset.card_range]
    exact Nat.lt_succ_of_le (List.toFinset_card_le S)
  have hmaps : ∀ k ∈ Finset.range (S.length + 1), seq k ∈ S.toFinset :=
    fun k _ => List.mem_toFinset.mpr (hseqS k)
  rcases Finset.exists_ne_map_eq_of_card_lt_of_maps_to hcard hmaps with
    ⟨x, hx, y, hy, hxy, hseq⟩
  obtain ⟨a, b, hab, hfab, hbS⟩ : ∃ a b, a < b ∧ seq a = seq b ∧ b ≤ S.length := by
    rcases Nat.lt_or_ge x y with hlt | hge
    · exact ⟨x, y, hlt, hseq, Nat.lt_succ_iff.mp (Finset.mem_range.mp hy)⟩
    · exact ⟨y, x, Nat.lt_of_le_of_ne hge (Ne.symm hxy), hseq.symm,
        Nat.lt_succ_iff.mp (Finset.mem_range.mp hx)⟩
  have hwalk : ∀ (m s : Nat),
      walkB edges (seq s) ((List.range m).map (fun k => seq (s + 1 + k))) = true := by
    intro m
    induction m with
    | zero => intro s; rfl
    | succ m ihm =>
      intro s
      rw [List.range_succ_eq_map, List.map_cons, List.map_map]
      have hmap : (List.range m).map ((fun k => seq (s + 1 + k)) ∘ Nat.succ) =
          (List.range m).map (fun k => seq (s + 1 + 1 + k)) := by
        apply List.map_congr_left
        intro k _
        show seq (s + 1 + (k + 1)) = seq (s + 1 + 1 + k)
        congr 1
        omega
      rw [hmap, walkB]
      apply (Bool.and_eq_true _ _).mpr
      constructor
      · exact decide_eq_true (hstep s)
      · exact ihm (s + 1)
  refine ⟨seq a :: (List.range (b - a - 1)).map (fun k => seq (a + 1 + k)), ?_, ?_⟩
  · rw [isCycleB]
    have hlist : (List.range (b - a - 1)).map (fun k => seq (a + 1 + k)) ++ [seq a] =
        (List.range (b - a)).map (fun k => seq (a + 1 + k)) := by
      have hba : b - a = (b - a - 1) + 1 := by omega
      rw [hba, List.range_succ, List.map_append, List.map_cons, List.map_nil]
      have : a + 1 + (b - a - 1) = b := by omega
      rw [this, hfab, Nat.add_sub_cancel]
    rw [hlist]
    exact hwalk (b - a) a
  · rw [List.length_cons, List.length_map, List.length_range]
    omega

theorem stuck_cycle (edges : List (RId × RId)) (S : List RId) (hS : S ≠ [])
    (hstuck : ∀ n ∈ S, ¬ readyB edges S n = true) : hasCycle edges := by
  rcases stuck_cycle_bounded edges S hS hstuck with ⟨c, hc, _⟩
  exact ⟨c, hc⟩

theorem kahnAux_ok_of_acyclic (edges : List (RId × RId)) :
    ∀ (fuel : Nat) (r : List RId), r.length ≤ fuel → ¬ hasCycle edges →
      ∃ bs, kahnAux edges fuel r = Except.ok bs := by
  intro fuel
  induction fuel with
  | zero =>
    intro r hr _
    cases r with
    | nil => exact ⟨[], rfl⟩
    | cons a t => simp at hr
  | succ fuel ih =>
    intro r hr hnc
    cases r with
    | nil => exact ⟨[], rfl⟩
    | cons a t =>
      by_cases hb : ((a :: t).filter (readyB edges (a :: t))).isEmpty
      · exfalso
        apply hnc
        apply stuck_cycle edges (a :: t) (List.cons_ne_nil a t)
        intro n hn hready
        have : n ∈ (a :: t).filter (readyB edges (a :: t)) :=
          List.mem_filter.mpr ⟨hn, hready⟩
        rw [List.isEmpty_iff.mp hb] at this
        cases this
      · have hlt : ((a :: t).filter
            (fun n => decide (¬ n ∈ (a :: t).filter (readyB edges (a :: t))))).length <
            (a :: t).length := by
          apply List.length_filter_lt_length_iff_exists.mpr
          have hne : (a :: t).filter (readyB edges (a :: t)) ≠ [] := by
            intro hnil
            rw [hnil] at hb
            exact hb rfl
          rcases List.exists_mem_of_ne_nil _ hne with ⟨x, hx⟩
          refine ⟨x, (List.mem_filter.mp hx).1, ?_⟩
          simp [hx]
        rcases ih ((a :: t).filter
            (fun n => decide (¬ n ∈ (a :: t).filter (readyB edges (a :: t)))))
            (by omega) hnc with ⟨bs', hbs'⟩
        refine ⟨(a :: t).filter (readyB edges (a :: t)) :: bs', ?_⟩
        rw [kahnAux, if_neg hb, hbs']

theorem edge_src_mem (g : List Decl) :
    ∀ {x y : RId}, (x, y) ∈ edgesOf g → x ∈ nodeIds g := by
  induction g with
  | nil => intro x y h; cases h
  | cons d t ih =>
    intro x y h
    rw [edgesOf] at h
    rcases List.mem_append.mp h with h1 | h1
    · rcases List.mem_map.mp h1 with ⟨m, _, hm⟩
      have : x = d.rid := (Prod.mk.injEq _ _ _ _).mp hm.symm |>.1
      rw [nodeIds, List.map_cons, this]
      exact List.mem_cons_self _ _
    · rw [nodeIds, List.map_cons]
      exact List.mem_cons_of_mem _ (ih h1)

theorem computePlan_batch_lt (g : List Decl) (bs : List (List RId))
    (h : computePlan g = Except.ok bs) (hwf : WfTargets g) :
    ∀ {x y : RId}, (x, y) ∈ edgesOf g → batchIdx bs y < batchIdx bs x := by
  intro x y hxy
  have hperm := kahnAux_perm (edgesOf g) _ _ _ h
  have hx : x ∈ allNodes bs :=
    hperm.mem_iff.mpr (edge_src_mem g hxy)
  have hxb : x ∈ bs.getD (batchIdx bs x) [] := batchIdx_mem bs x hx
  have hy : y ∈ nodeIds g := hwf (x, y) hxy
  rcases kahnAux_earlier (edgesOf g) _ _ _ h (batchIdx bs x) x y hxb hxy hy with
    ⟨j, hj, hjm⟩
  exact Nat.lt_of_le_of_lt (batchIdx_le bs y j hjm) hj

theorem walk_batch_lt (g : List Decl) (bs : List (List RId))
    (h : computePlan g = Except.ok bs) (hwf : WfTargets g) :
    ∀ (l : List RId) (x : RId), walkB (edgesOf g) x l = true →
      ∀ (hl : l ≠ []), batchIdx bs (l.getLast hl) < batchIdx bs x := by
  intro l
  induction l with
  | nil => intro x _ hl; exact absurd rfl hl
  | cons y l' ih =>
    intro x hw _
    rw [walkB] at hw
    rcases (Bool.and_eq_true _ _).mp hw with ⟨h1, h2⟩
    have hxy : (x, y) ∈ edgesOf g := of_decide_eq_true h1
    cases l' with
    | nil =>
      show batchIdx bs y < batchIdx bs x
      exact computePlan_batch_lt g bs h hwf hxy
    | cons z l'' =>
      rw [List.getLast_cons (List.cons_ne_nil z l'')]
      exact Nat.lt_trans (ih y h2 (List.cons_ne_nil z l''))
        (computePlan_batch_lt g bs h hwf hxy)

theorem computePlan_ok_no_cycle (g : List Decl) (bs : List (List RId))
    (h : computePlan g = Except.ok bs) (hwf : WfTargets g) :
    ¬ hasCycle (edgesOf g) := by
  rintro ⟨l, hl⟩
  cases l with
  | nil => cases hl
  | cons a t =>
    rw [isCycleB] at hl
    have hne : t ++ [a] ≠ [] := by simp
    have := walk_batch_lt g bs h hwf (t ++ [a]) a hl hne
    rw [List.getLast_concat t] at this
    exact Nat.lt_irrefl _ this

theorem consAll_mem (cs : List RId) (ls : List (List RId)) (c : RId) (l : List RId)
    (hc : c ∈ cs) (hl : l ∈ ls) : c :: l ∈ consAll cs ls := by
  induction cs with
  | nil => cases hc
  | cons c₀ t ih =>
    rw [consAll]
    rcases List.mem_cons.mp hc with h | h
    · subst h
      exact List.mem_append_left _ (List.mem_map_of_mem _ hl)
    · exact List.mem_append_right _ (ih h)

theorem consAll_shape (cs : List RId) (ls : List (List RId)) (l' : List RId)
    (h : l' ∈ consAll cs ls) : ∃ c l, l' = c :: l ∧ l ∈ ls := by
  induction cs with
  | nil => cases h
  | cons c₀ t ih =>
    rw [consAll] at h
    rcases List.mem_append.mp h with h1 | h1
    · rcases List.mem_map.mp h1 with ⟨l, hl, hle⟩
      exact ⟨c₀, l, hle.symm, hl⟩
    · exact ih h1

theorem seqsOfLen_length (cands : List RId) :
    ∀ (n : Nat) (l : List RId), l ∈ seqsOfLen cands n → l.length = n := by
  intro n
  induction n with
  | zero =>
    intro l h
    rw [seqsOfLen] at h
    rw [List.mem_singleton.mp h]
    rfl
  | succ n ih =>
    intro l h
    rw [seqsOfLen] at h
    rcases consAll_shape _ _ _ h with ⟨c, l₀, rfl, hl₀⟩
    rw [List.length_cons, ih l₀ hl₀]

theorem seqsOfLen_complete (cands : List RId) :
    ∀ (l : List RId), (∀ x ∈ l, x ∈ cands) → l ∈ seqsOfLen cands l.length := by
  intro l
  induction l with
  | nil =>
    intro
    rw [List.length_nil, seqsOfLen]
    exact List.mem_singleton.mpr rfl
  | cons c t ih =>
    intro hall
    rw [List.length_cons, seqsOfLen]
    exact consAll_mem cands _ c t (hall c (List.mem_cons_self c t))
      (ih (fun x hx => hall x (List.mem_cons_of_mem c hx)))

theorem walk_src_mem (edges : List (RId × RId)) :
    ∀ (t : List RId) (x z : RId), walkB edges x (t ++ [z]) = true →
      ∀ y, y = x ∨ y ∈ t → y ∈ edges.map Prod.fst := by
  intro t
  induction t with
  | nil =>
    intro x z hw y hy
    rw [List.nil_append, walkB] at hw
    rcases (Bool.and_eq_true _ _).mp hw with ⟨h1, _⟩
    rcases hy with rfl | hy
    · exact List.mem_map_of_mem Prod.fst (of_decide_eq_true h1)
    · cases hy
  | cons b t' ih =>
    intro x z hw y hy
    rw [List.cons_append, walkB] at hw
    rcases (Bool.and_eq_true _ _).mp hw with ⟨h1, h2⟩
    rcases hy with rfl | hy
    · exact List.mem_map_of_mem Prod.fst (of_decide_eq_true h1)
    · rcases List.mem_cons.mp hy with rfl | hy'
      · exact ih y z h2 y (Or.inl rfl)
      · exact ih b z h2 y (Or.inr hy')

theorem cycle_nodes_sources (edges : List (RId × RId)) (c : List RId)
    (hc : isCycleB edges c = true) : ∀ x ∈ c, x ∈ edges.map Prod.fst := by
  cases c with
  | nil => cases hc
  | cons a t =>
    rw [isCycleB] at hc
    intro x hx
    rcases List.mem_cons.mp hx with rfl | hx'
    · exact walk_src_mem edges t x x hc x (Or.inl rfl)
    · exact walk_src_mem edges t a a hc x (Or.inr hx')

theorem cycle_length_pos (edges : List (RId × RId)) (c : List RId)
    (hc : isCycleB edges c = true) : 1 ≤ c.length := by
  cases c with
  | nil => cases hc
  | cons a t =>
    rw [List.length_cons]
    exact Nat.succ_le_succ (Nat.zero_le _)

theorem minCycleGo_some (edges : List (RId × RId)) (cands : List RId) :
    ∀ (k L : Nat) (c : List RId), minCycleGo edges cands L k = some c →
      isCycleB edges c = true ∧ L ≤ c.length ∧
      ∀ c', isCycleB edges c' = true → (∀ x ∈ c', x ∈ cands) → L ≤ c'.length →
        c.length ≤ c'.length := by
  intro k
  induction k with
  | zero =>
    intro L c h
    simp [minCycleGo] at h
  | succ k ih =>
    intro L c h
    rw [minCycleGo] at h
    cases hf : (seqsOfLen cands L).find? (isCycleB edges) with
    | some c₀ =>
      rw [hf] at h
      injection h with h'
      subst h'
      have hlen : c₀.length = L := seqsOfLen_length cands L c₀ (List.mem_of_find?_eq_some hf)
      refine ⟨List.find?_some hf, Nat.le_of_eq hlen.symm, ?_⟩
      intro c' _ _ hge
      rw [hlen]
      exact hge
    | none =>
      rw [hf] at h
      have hrec := ih (L + 1) c h
      refine ⟨hrec.1, Nat.le_of_succ_le hrec.2.1, ?_⟩
      intro c' hc' hnodes hge
      rcases Nat.eq_or_lt_of_le hge with heq | hlt
      · exfalso
        have hmem : c' ∈ seqsOfLen cands L := by
          rw [heq]
          exact seqsOfLen_complete cands c' hnodes
        exact (List.find?_eq_none.mp hf c' hmem) hc'
      · exact hrec.2.2 c' hc' hnodes hlt

theorem minCycleGo_succeeds (edges : List (RId × RId)) (cands : List RId) :
    ∀ (k L : Nat), (∃ c₀, isCycleB edges c₀ = true ∧ (∀ x ∈ c₀, x ∈ cands) ∧
      L ≤ c₀.length ∧ c₀.length < L + k) →
    ∃ c, minCycleGo edges cands L k = some c := by
  intro k
  induction k with
  | zero =>
    rintro L ⟨c₀, _, _, hge, hlt⟩
    omega
  | succ k ih =>
    rintro L ⟨c₀, hc₀, hnodes, hge, hlt⟩
    rw [minCycleGo]
    cases hf : (seqsOfLen cands L).find? (isCycleB edges) with
    | some c => exact ⟨c, rfl⟩
    | none =>
      apply ih (L + 1)
      refine ⟨c₀, hc₀, hnodes, ?_, by omega⟩
      rcases Nat.eq_or_lt_of_le hge with heq | hlt'
      · exfalso
        have hmem : c₀ ∈ seqsOfLen cands L := by
          rw [heq]
          exact seqsOfLen_complete cands c₀ hnodes
        exact (List.find?_eq_none.mp hf c₀ hmem) hc₀
      · exact hlt'

theorem minimalCycle_spec (edges : List (RId × RId))
    (hex : ∃ c₀, isCycleB edges c₀ = true ∧ c₀.length ≤ edges.length) :
    ∃ c, minimalCycle edges = some c ∧ isCycleB edges c = true ∧
      ∀ c', isCycleB edges c' = true → c.length ≤ c'.length := by
  rcases hex with ⟨c₀, hc₀, hlen⟩
  have hsucc : ∃ c, minCycleGo edges (edges.map Prod.fst) 1 (edges.length + 1) = some c := by
    apply minCycleGo_succeeds
    exact ⟨c₀, hc₀, cycle_nodes_sources edges c₀ hc₀, cycle_length_pos edges c₀ hc₀, by omega⟩
  rcases hsucc with ⟨c, hc⟩
  have hprops := minCycleGo_some edges (edges.map Prod.fst) (edges.length + 1) 1 c hc
  refine ⟨c, hc, hprops.1, ?_⟩
  intro c' hc'
  exact hprops.2.2 c' hc' (cycle_nodes_sources edges c' hc') (cycle_length_pos edges c' hc')

theorem stuck_length_le (edges : List (RId × RId)) (S : List RId) (hnd : S.Nodup)
    (hstuck : ∀ n ∈ S, ¬ readyB edges S n = true) : S.length ≤ edges.length := by
  have hsub : S.toFinset ⊆ (edges.map Prod.fst).toFinset := by
    intro n hn
    have hnS : n ∈ S := List.mem_toFinset.mp hn
    rcases readyB_false edges S n (hstuck n hnS) with ⟨e, he, h1, _⟩
    apply List.mem_toFinset.mpr
    rw [← h1]
    exact List.mem_map_of_mem Prod.fst he
  calc S.length = S.toFinset.card := (List.toFinset_card_of_nodup hnd).symm
    _ ≤ (edges.map Prod.fst).toFinset.card := Finset.card_le_card hsub
    _ ≤ (edges.map Prod.fst).length := List.toFinset_card_le _
    _ = edges.length := List.length_map _ _

theorem kahnAux_error_minimal (edges : List (RId × RId)) :
    ∀ (fuel : Nat) (r : List RId) (c : List RId), r.length ≤ fuel → r.Nodup →
      kahnAux edges fuel r = Except.error c →
      isCycleB edges c = true ∧
        ∀ c', isCycleB edges c' = true → c.length ≤ c'.length := by
  intro fuel
  induction fuel with
  | zero =>
    intro r c hle _ h
    cases r with
    | nil => simp [kahnAux] at h
    | cons a t =>
      rw [List.length_cons] at hle
      omega
  | succ fuel ih =>
    intro r c hle hnd h
    cases r with
    | nil => simp [kahnAux] at h
    | cons a t =>
      rw [kahnAux] at h
      by_cases hb : ((a :: t).filter (readyB edges (a :: t))).isEmpty
      · rw [if_pos hb] at h
        have hstuck : ∀ n ∈ (a :: t), ¬ readyB edges (a :: t) n = true := by
          intro n hn hready
          have hmem : n ∈ (a :: t).filter (readyB edges (a :: t)) :=
            List.mem_filter.mpr ⟨hn, hready⟩
          rw [List.isEmpty_iff.mp hb] at hmem
          cases hmem
        rcases stuck_cycle_bounded edges (a :: t) (List.cons_ne_nil a t) hstuck with
          ⟨c₀, hc₀, hc₀len⟩
        rcases minimalCycle_spec edges
            ⟨c₀, hc₀, le_trans hc₀len (stuck_length_le edges (a :: t) hnd hstuck)⟩ with
          ⟨cm, hcm, hcyc, hmin⟩
        rw [hcm, Option.getD_some] at h
        injection h with h'
        subst h'
        exact ⟨hcyc, hmin⟩
      · rw [if_neg hb] at h
        cases hrec : kahnAux edges fuel
            ((a :: t).filter (fun n => decide (¬ n ∈ (a :: t).filter (readyB edges (a :: t))))) with
        | error c₀ =>
          rw [hrec] at h
          injection h with h'
          subst h'
          have hlt : ((a :: t).filter
              (fun n => decide (¬ n ∈ (a :: t).filter (readyB edges (a :: t))))).length <
              (a :: t).length := by
            apply List.length_filter_lt_length_iff_exists.mpr
            have hne : (a :: t).filter (readyB edges (a :: t)) ≠ [] := by
              intro hnil
              rw [hnil] at hb
              exact hb rfl
            rcases List.exists_mem_of_ne_nil _ hne with ⟨x, hx⟩
            refine ⟨x, (List.mem_filter.mp hx).1, ?_⟩
            simp [hx]
          exact ih _ _ (by omega) (List.Nodup.filter _ hnd) hrec
        | ok bs' => rw [hrec] at h; cases h

/-- C1: for every dependency graph with no cycle, computePlan terminates
with an ExecutionPlan in which every node is placed in some batch and every
dependency of a node that is itself a registered node sits in a strictly
earlier batch. -/
theorem claim_C1 (g : List Decl) (hnc : ¬ hasCycle (edgesOf g)) :
    ∃ bs, computePlan g = Except.ok bs ∧
      (∀ n ∈ nodeIds g, ∃ i, n ∈ bs.getD i []) ∧
      (∀ (i : Nat) (n m : RId), n ∈ bs.getD i [] → (n, m) ∈ edgesOf g →
        m ∈ nodeIds g → ∃ j, j < i ∧ m ∈ bs.getD j []) := by
  rcases kahnAux_ok_of_acyclic (edgesOf g) (nodeIds g).length (nodeIds g)
    (Nat.le_refl _) hnc with ⟨bs, hbs⟩
  refine ⟨bs, hbs, ?_, ?_⟩
  · intro n hn
    have hperm := kahnAux_perm (edgesOf g) _ _ _ hbs
    exact ⟨batchIdx bs n, batchIdx_mem bs n (hperm.mem_iff.mpr hn)⟩
  · exact fun i n m h1 h2 h3 => kahnAux_earlier (edgesOf g) _ _ _ hbs i n m h1 h2 h3

theorem claim_C1_witness :
    ∃ bs, computePlan vpcSubnetGraph = Except.ok bs ∧
      (∀ n ∈ nodeIds vpcSubnetGraph, ∃ i, n ∈ bs.getD i []) ∧
      (∀ (i : Nat) (n m : RId), n ∈ bs.getD i [] → (n, m) ∈ edgesOf vpcSubnetGraph →
        m ∈ nodeIds vpcSubnetGraph → ∃ j, j < i ∧ m ∈ bs.getD j []) :=
  claim_C1 vpcSubnetGraph
    (computePlan_ok_no_cycle vpcSubnetGraph
      [[("aws.ec2.Vpc", "my-vpc")], [("aws.ec2.Subnet", "my-subnet-1")]] rfl (by decide))

/-- C2: for every well-formed graph containing a cycle, computePlan never
returns a plan and fails with a CycleError whose node list is a minimal
cycle — a dependency cycle no longer than any other cycle of the graph; for
the two mutually referencing resources x and y of the scenario, the
CycleError lists exactly [x, y]. -/
theorem claim_C2 :
    (∀ (g : List Decl), (nodeIds g).Nodup → WfTargets g → hasCycle (edgesOf g) →
      (∀ bs, ¬ computePlan g = Except.ok bs) ∧
      ∃ c, computePlan g = Except.error c ∧ isCycleB (edgesOf g) c = true ∧
        ∀ c', isCycleB (edgesOf g) c' = true → c.length ≤ c'.length) ∧
    computePlan cycleGraph = Except.error [("res", "x"), ("res", "y")] := by
  constructor
  · intro g hnd hwf hcyc
    have hnok : ∀ bs, ¬ computePlan g = Except.ok bs := by
      intro bs hok
      exact computePlan_ok_no_cycle g bs hok hwf hcyc
    refine ⟨hnok, ?_⟩
    cases hcp : computePlan g with
    | ok bs => exact absurd hcp (hnok bs)
    | error c =>
      have hmin := kahnAux_error_minimal (edgesOf g) (nodeIds g).length (nodeIds g) c
        (Nat.le_refl _) hnd hcp
      exact ⟨c, rfl, hmin.1, hmin.2⟩
  · rfl

theorem claim_C2_witness :
    (∀ bs, ¬ computePlan cycleGraph = Except.ok bs) ∧
    ∃ c, computePlan cycleGraph = Except.error c ∧ isCycleB (edgesOf cycleGraph) c = true ∧
      ∀ c', isCycleB (edgesOf cycleGraph) c' = true → c.length ≤ c'.length :=
  claim_C2.1 cycleGraph (by decide) (by decide)
    ⟨[("res", "x"), ("res", "y")], by decide⟩

theorem foldl_reverse_cons (l : List (List RId)) :
    ∀ acc, l.foldl (fun acc b => b.reverse :: acc) acc = (l.map List.reverse).reverse ++ acc := by
  induction l with
  | nil => intro acc; simp
  | cons b t ih =>
    intro acc
    rw [List.foldl_cons, ih (b.reverse :: acc)]
    simp

/-- C4: for every acyclic graph, the destroy plan is exactly the reverse of
the apply plan — batch order inverted, node order within each batch
reversed. -/
theorem claim_C4 (g : List Decl) (hnc : ¬ hasCycle (edgesOf g)) :
    ∃ bs, computePlan g = Except.ok bs ∧ destroyPlan g = Except.ok (reversePlan bs) := by
  rcases kahnAux_ok_of_acyclic (edgesOf g) (nodeIds g).length (nodeIds g)
    (Nat.le_refl _) hnc with ⟨bs, hbs⟩
  refine ⟨bs, hbs, ?_⟩
  rw [destroyPlan]
  rw [show computePlan g = Except.ok bs from hbs]
  show Except.ok (bs.foldl (fun acc b => b.reverse :: acc) []) = Except.ok (reversePlan bs)
  rw [foldl_reverse_cons bs []]
  rw [reversePlan, List.append_nil]

theorem claim_C4_witness :
    ∃ bs, computePlan vpcSubnetGraph = Except.ok bs ∧
      destroyPlan vpcSubnetGraph = Except.ok (reversePlan bs) :=
  claim_C4 vpcSubnetGraph
    (computePlan_ok_no_cycle vpcSubnetGraph
      [[("aws.ec2.Vpc", "my-vpc")], [("aws.ec2.Subnet", "my-subnet-1")]] rfl (by decide))

theorem lookupKV_append_some {κ ν : Type} [DecidableEq κ] (k : κ) (l l' : List (κ × ν)) (v : ν)
    (h : lookupKV k l = some v) : lookupKV k (l ++ l') = some v := by
  induction l with
  | nil => cases h
  | cons p t ih =>
    rw [List.cons_append, lookupKV]
    rw [lookupKV] at h
    by_cases hk : p.1 = k
    · rw [if_pos hk] at h ⊢
      exact h
    · rw [if_neg hk] at h ⊢
      exact ih h

theorem lookupKV_append_none {κ ν : Type} [DecidableEq κ] (k : κ) (l l' : List (κ × ν))
    (h : lookupKV k l = none) : lookupKV k (l ++ l') = lookupKV k l' := by
  induction l with
  | nil => rfl
  | cons p t ih =>
    rw [List.cons_append, lookupKV]
    rw [lookupKV] at h
    by_cases hk : p.1 = k
    · rw [if_pos hk] at h
      cases h
    · rw [if_neg hk] at h ⊢
      exact ih h

theorem execNode_stable (g : List Decl) (P : Provider) (res : List (RId × RState))
    (n k : RId) (v : RState) (h : lookupKV k res = some v) :
    lookupKV k (execNode g P res n) = some v := by
  rw [execNode]
  cases findDecl g n with
  | none => exact h
  | some d => exact lookupKV_append_some k res _ v h

theorem execBatch_stable (g : List Decl) (P : Provider) :
    ∀ (b : List RId) (res : List (RId × RState)) (k : RId) (v : RState),
      lookupKV k res = some v → lookupKV k (execBatch g P res b) = some v := by
  intro b
  induction b with
  | nil => intro res k v h; exact h
  | cons x b' ih =>
    intro res k v h
    exact ih (execNode g P res x) k v (execNode_stable g P res x k v h)

theorem execPlan_stable (g : List Decl) (P : Provider) :
    ∀ (plan : List (List RId)) (res : List (RId × RState)) (k : RId) (v : RState),
      lookupKV k res = some v → lookupKV k (execPlan g P res plan) = some v := by
  intro plan
  induction plan with
  | nil => intro res k v h; exact h
  | cons b rest ih =>
    intro res k v h
    exact ih (execBatch g P res b) k v (execBatch_stable g P b res k v h)

theorem execNode_fresh (g : List Decl) (P : Provider) (res : List (RId × RState))
    (n k : RId) (hk : lookupKV k res = none) (hne : ¬ n = k) :
    lookupKV k (execNode g P res n) = none := by
  rw [execNode]
  cases findDecl g n with
  | none => exact hk
  | some d =>
    rw [lookupKV_append_none k res _ hk, lookupKV, if_neg hne]
    rfl

theorem execBatch_fresh (g : List Decl) (P : Provider) :
    ∀ (b : List RId) (res : List (RId × RState)) (k : RId),
      lookupKV k res = none → ¬ k ∈ b → lookupKV k (execBatch g P res b) = none := by
  intro b
  induction b with
  | nil => intro res k h _; exact h
  | cons x b' ih =>
    intro res k h hnb
    have hx : ¬ x = k := fun he => hnb (he ▸ List.mem_cons_self x b')
    exact ih (execNode g P res x) k (execNode_fresh g P res x k h hx)
      (fun hm => hnb (List.mem_cons_of_mem x hm))

theorem findDecl_of_mem_nodeIds (g : List Decl) (n : RId) (h : n ∈ nodeIds g) :
    ∃ d, findDecl g n = some d ∧ d.rid = n := by
  rcases List.mem_map.mp h with ⟨d, hd, hdn⟩
  have hex : ∃ x ∈ g, (fun d => decide (d.rid = n)) x = true :=
    ⟨d, hd, decide_eq_true hdn⟩
  have hsome : (g.find? (fun d => decide (d.rid = n))).isSome = true :=
    List.find?_isSome.mpr hex
  cases hfind : g.find? (fun d => decide (d.rid = n)) with
  | none => rw [hfind] at hsome; cases hsome
  | some d' =>
    exact ⟨d', hfind, by simpa using List.find?_some hfind⟩

theorem execBatch_processed (g : List Decl) (P : Provider) :
    ∀ (b : List RId) (res : List (RId × RState)) (k : RId),
      k ∈ b → k ∈ nodeIds g → ∃ s, lookupKV k (execBatch g P res b) = some s := by
  intro b
  induction b with
  | nil => intro res k h _; cases h
  | cons x b' ih =>
    intro res k hkb hkg
    by_cases hx : x = k
    · subst hx
      have hstep : ∃ s, lookupKV x (execNode g P res x) = some s := by
        rw [execNode]
        rcases findDecl_of_mem_nodeIds g x hkg with ⟨d, hd, _⟩
        rw [hd]
        cases hres : lookupKV x res with
        | some v => exact ⟨v, lookupKV_append_some x res _ v hres⟩
        | none =>
          refine ⟨applyNode P res d, ?_⟩
          rw [lookupKV_append_none x res _ hres, lookupKV, if_pos rfl]
      rcases hstep with ⟨s, hs⟩
      exact ⟨s, execBatch_stable g P b' _ x s hs⟩
    · rcases List.mem_cons.mp hkb with h | h
      · exact absurd h.symm hx
      · exact ih (execNode g P res x) k h hkg

theorem applyNode_skipped (P : Provider) (res : List (RId × RState)) (d : Decl)
    (m : RId) (sm : RState) (hm : m ∈ d.deps) (hsm : lookupKV m res = some sm)
    (hna : isAppliedSt (some sm) = false) : applyNode P res d = RState.skipped := by
  rw [applyNode, if_neg]
  intro hall
  have := List.all_eq_true.mp hall m hm
  rw [hsm, hna] at this
  cases this

theorem execBatch_skip (g : List Decl) (P : Provider) :
    ∀ (b : List RId) (res : List (RId × RState)) (n : RId) (d : Decl) (m : RId) (sm : RState),
      n ∈ b → lookupKV n res = none → findDecl g n = some d → m ∈ d.deps →
      lookupKV m res = some sm → isAppliedSt (some sm) = false →
      lookupKV n (execBatch g P res b) = some RState.skipped := by
  intro b
  induction b with
  | nil => intro res n d m sm hn _ _ _ _ _; cases hn
  | cons x b' ih =>
    intro res n d m sm hn hfresh hfd hm hsm hna
    by_cases hx : x = n
    · subst hx
      have hstep : lookupKV x (execNode g P res x) = some RState.skipped := by
        rw [execNode, hfd]
        rw [lookupKV_append_none x res _ hfresh, lookupKV, if_pos rfl]
        rw [applyNode_skipped P res d m sm hm hsm hna]
      exact execBatch_stable g P b' _ x RState.skipped hstep
    · have hn' : n ∈ b' := by
        rcases List.mem_cons.mp hn with h | h
        · exact absurd h.symm hx
        · exact h
      exact ih (execNode g P res x) n d m sm hn'
        (execNode_fresh g P res x n hfresh hx) hfd hm
        (execNode_stable g P res x m sm hsm) hna

theorem mem_edgesOf (g : List Decl) (d : Decl) (m : RId) (hd : d ∈ g) (hm : m ∈ d.deps) :
    (d.rid, m) ∈ edgesOf g := by
  induction g with
  | nil => cases hd
  | cons d₀ t ih =>
    rw [edgesOf]
    rcases List.mem_cons.mp hd with h | h
    · subst h
      exact List.mem_append_left _ (List.mem_map_of_mem _ hm)
    · exact List.mem_append_right _ (ih h)

theorem edgesOf_mem (g : List Decl) (x y : RId) (h : (x, y) ∈ edgesOf g) :
    ∃ d ∈ g, d.rid = x ∧ y ∈ d.deps := by
  induction g with
  | nil => cases h
  | cons d₀ t ih =>
    rw [edgesOf] at h
    rcases List.mem_append.mp h with h1 | h1
    · rcases List.mem_map.mp h1 with ⟨m, hm, hme⟩
      rcases Prod.mk.injEq _ _ _ _ ▸ hme with ⟨h2, h3⟩
      exact ⟨d₀, List.mem_cons_self d₀ t, h2, h3 ▸ hm⟩
    · rcases ih h1 with ⟨d, hd, hdx, hdy⟩
      exact ⟨d, List.mem_cons_of_mem d₀ hd, hdx, hdy⟩

theorem decl_unique_by_rid (g : List Decl) (hnd : (nodeIds g).Nodup) :
    ∀ d₁ d₂, d₁ ∈ g → d₂ ∈ g → d₁.rid = d₂.rid → d₁ = d₂ := by
  induction g with
  | nil => intro d₁ d₂ h; cases h
  | cons d₀ t ih =>
    intro d₁ d₂ h1 h2 hr
    have hnd' : (nodeIds t).Nodup := (List.nodup_cons.mp hnd).2
    have hni : ¬ d₀.rid ∈ nodeIds t := (List.nodup_cons.mp hnd).1
    rcases List.mem_cons.mp h1 with e1 | e1 <;> rcases List.mem_cons.mp h2 with e2 | e2
    · rw [e1, e2]
    · exfalso
      apply hni
      have : d₀.rid = d₂.rid := by rw [← e1]; exact hr
      rw [this]
      exact List.mem_map_of_mem Decl.rid e2
    · exfalso
      apply hni
      have : d₀.rid = d₁.rid := by rw [← e2]; exact hr.symm
      rw [this]
      exact List.mem_map_of_mem Decl.rid e1
    · exact ih hnd' d₁ d₂ e1 e2 hr

theorem execPlan_skip (g : List Decl) (P : Provider) :
    ∀ (plan : List (List RId)) (res : List (RId × RState)),
      (allNodes plan).Nodup →
      (∀ n ∈ allNodes plan, n ∈ nodeIds g) →
      (∀ n ∈ allNodes plan, lookupKV n res = none) →
      (∀ (i : Nat) (n : RId), n ∈ plan.getD i [] → ∀ d, findDecl g n = some d →
        ∀ m ∈ d.deps, (∃ s, lookupKV m res = some s) ∨ ∃ j, j < i ∧ m ∈ plan.getD j []) →
      ∀ (n : RId) (d : Decl) (m : RId) (sm : RState),
        n ∈ allNodes plan → findDecl g n = some d → m ∈ d.deps →
        lookupKV m (execPlan g P res plan) = some sm → isAppliedSt (some sm) = false →
        lookupKV n (execPlan g P res plan) = some RState.skipped := by
  intro plan
  induction plan with
  | nil => intro res _ _ _ _ n d m sm hn; cases hn
  | cons b rest ih =>
    intro res hnodup hsub hfresh hdeps n d m sm hn hfd hm hsmR hna
    have hRdef : execPlan g P res (b :: rest) = execPlan g P (execBatch g P res b) rest := rfl
    have hnodup' := (List.nodup_append.mp (by exact hnodup)).2.1
    have hdisj : ∀ k, k ∈ b → ¬ k ∈ allNodes rest := by
      intro k hk hk'
      exact (List.nodup_append.mp (by exact hnodup)).2.2 hk hk'
    rcases List.mem_append.mp hn with hnb | hnrest
    · -- n belongs to the first batch: its dependency m must already carry a
      -- final state in res, so the batch marks n Skipped and later batches
      -- cannot overwrite it.
      have hdn := hdeps 0 n hnb d hfd m hm
      rcases hdn with ⟨s, hs⟩ | ⟨j, hj, _⟩
      · have hsR : lookupKV m (execPlan g P res (b :: rest)) = some s := by
          rw [hRdef]
          exact execPlan_stable g P rest _ m s (execBatch_stable g P b res m s hs)
        have hsm_eq : s = sm := by
          rw [hsmR] at hsR
          exact (Option.some.injEq _ _ ▸ hsR).symm
        have hbatch : lookupKV n (execBatch g P res b) = some RState.skipped :=
          execBatch_skip g P b res n d m s hnb (hfresh n hn) hfd hm hs (hsm_eq ▸ hna)
        rw [hRdef]
        exact execPlan_stable g P rest _ n RState.skipped hbatch
      · exact absurd hj (Nat.not_lt_zero j)
    · -- n belongs to a later batch: apply the induction hypothesis after the
      -- first batch has executed.
      rw [hRdef] at hsmR ⊢
      apply ih (execBatch g P res b) hnodup'
        (fun k hk => hsub k (List.mem_append_right b hk))
        (fun k hk => execBatch_fresh g P b res k
          (hfresh k (List.mem_append_right b hk)) (fun hkb => hdisj k hkb hk))
        ?_ n d m sm hnrest hfd hm hsmR hna
      intro i n' hn' d' hfd' m' hm'
      have hd' := hdeps (i + 1) n' hn' d' hfd' m' hm'
      rcases hd' with ⟨s, hs⟩ | ⟨j, hj, hjm⟩
      · exact Or.inl ⟨s, execBatch_stable g P b res m' s hs⟩
      · cases j with
        | zero =>
          left
          apply execBatch_processed g P b res m' hjm
          apply hsub
          exact List.mem_append_left _ hjm
        | succ j' =>
          right
          exact ⟨j', Nat.lt_of_succ_lt_succ hj, hjm⟩

/-- C3: whenever a resource A ends an executed run in state Failed, every
resource depending on A directly or transitively ends the run Skipped and is
never Applied; for the scenario a, b(ref a), c(ref b) with a failing apply
of a, the final report is a=Failed, b=Skipped, c=Skipped. -/
theorem claim_C3 :
    (∀ (g : List Decl) (P : Provider) (report : List (RId × RState)) (A B : RId),
      (nodeIds g).Nodup → WfTargets g →
      execute g P = Except.ok report →
      lookupKV A report = some RState.failed →
      DepPath (edgesOf g) B A →
      lookupKV B report = some RState.skipped ∧
        ∀ ra outs, ¬ lookupKV B report = some (RState.applied ra outs)) ∧
    execute abcGraph abcProvider =
      Except.ok [(("res", "a"), RState.failed), (("res", "b"), RState.skipped),
                 (("res", "c"), RState.skipped)] := by
  constructor
  · intro g P report A B hnd hwf hex hA hpath
    cases hcp : computePlan g with
    | error c =>
      rw [execute, hcp] at hex
      cases hex
    | ok plan =>
      rw [execute, hcp] at hex
      have hrep : execPlan g P [] plan = report := by
        simp only [Except.map] at hex
        injection hex
      have hperm := kahnAux_perm (edgesOf g) _ _ _ hcp
      have hnodupPlan : (allNodes plan).Nodup := hperm.nodup_iff.mpr hnd
      have hsub : ∀ n ∈ allNodes plan, n ∈ nodeIds g := fun n hn => hperm.mem_iff.mp hn
      have hfresh : ∀ n ∈ allNodes plan, lookupKV n ([] : List (RId × RState)) = none :=
        fun _ _ => rfl
      have hdeps : ∀ (i : Nat) (n : RId), n ∈ plan.getD i [] → ∀ d, findDecl g n = some d →
          ∀ m ∈ d.deps, (∃ s, lookupKV m ([] : List (RId × RState)) = some s) ∨
            ∃ j, j < i ∧ m ∈ plan.getD j [] := by
        intro i n hni d hfd m hm
        right
        have hdg : d ∈ g := List.mem_of_find?_eq_some hfd
        have hdr : d.rid = n := by simpa using List.find?_some hfd
        have hedge : (n, m) ∈ edgesOf g := hdr ▸ mem_edgesOf g d m hdg hm
        exact kahnAux_earlier (edgesOf g) _ _ _ hcp i n m hni hedge (hwf (n, m) hedge)
      have hstepskip : ∀ (x m : RId) (sm : RState), (x, m) ∈ edgesOf g →
          lookupKV m report = some sm → isAppliedSt (some sm) = false →
          lookupKV x report = some RState.skipped := by
        intro x m sm hedge hsm hna
        rcases edgesOf_mem g x m hedge with ⟨d, hdg, hdr, hdm⟩
        have hxmem : x ∈ nodeIds g := hdr ▸ List.mem_map_of_mem Decl.rid hdg
        rcases findDecl_of_mem_nodeIds g x hxmem with ⟨d', hfd, hd'r⟩
        have hdd : d' = d :=
          decl_unique_by_rid g hnd d' d (List.mem_of_find?_eq_some hfd) hdg
            (by rw [hd'r, hdr])
        have hxplan : x ∈ allNodes plan := hperm.mem_iff.mpr hxmem
        have := execPlan_skip g P plan [] hnodupPlan hsub hfresh hdeps x d' m sm
          hxplan hfd (hdd ▸ hdm) (hrep ▸ hsm) hna
        exact hrep ▸ this
      have hmain : lookupKV B report = some RState.skipped := by
        revert hA
        induction hpath with
        | single hedge => intro hA; exact hstepskip _ _ RState.failed hedge hA rfl
        | cons hedge _ ihp => intro hA; exact hstepskip _ _ RState.skipped hedge (ihp hA) rfl
      refine ⟨hmain, ?_⟩
      intro ra outs hcontra
      rw [hmain] at hcontra
      have : RState.skipped = RState.applied ra outs := by injection hcontra
      cases this
  · rfl

theorem claim_C3_witness :
    lookupKV ("res", "c")
      [(("res", "a"), RState.failed), (("res", "b"), RState.skipped),
       (("res", "c"), RState.skipped)] = some RState.skipped ∧
    ∀ ra outs, ¬ lookupKV ("res", "c")
      [(("res", "a"), RState.failed), (("res", "b"), RState.skipped),
       (("res", "c"), RState.skipped)] = some (RState.applied ra outs) :=
  claim_C3.1 abcGraph abcProvider
    [(("res", "a"), RState.failed), (("res", "b"), RState.skipped),
     (("res", "c"), RState.skipped)]
    ("res", "a") ("res", "c") (by decide) (by decide) rfl rfl
    (@DepPath.cons (edgesOf abcGraph) ("res", "c") ("res", "b") ("res", "a")
      (by decide)
      (@DepPath.single (edgesOf abcGraph) ("res", "b") ("res", "a") (by decide)))

/-- C6: for the vpc and subnet declarations of src/index.ts 9-20, computePlan
yields exactly the batches [vpc] then [subnet], and after an apply with any
provider outputs the subnet's resolved vpcId attribute equals the vpc's
output id. -/
theorem claim_C6 (outFn : String → String → List (String × String) → List (String × String))
    (vid : String)
    (hid : lookupKV "id" (outFn "aws.ec2.Vpc" "my-vpc" vpcResolvedAttrs) = some vid) :
    computePlan vpcSubnetGraph =
      Except.ok [[("aws.ec2.Vpc", "my-vpc")], [("aws.ec2.Subnet", "my-subnet-1")]] ∧
    ∃ report, execute vpcSubnetGraph (okProvider outFn) = Except.ok report ∧
      ∃ ra outs,
        lookupKV ("aws.ec2.Subnet", "my-subnet-1") report = some (RState.applied ra outs) ∧
        lookupKV "vpcId" ra = some vid := by
  have hres : resolveAttrs
      [(("aws.ec2.Vpc", "my-vpc"),
        RState.applied vpcResolvedAttrs (outFn "aws.ec2.Vpc" "my-vpc" vpcResolvedAttrs))]
      subnet1Decl.attrs =
      some [("vpcId", vid), ("cidrBlock", "10.0.1.0/24"),
            ("availabilityZone", "us-east-1a"), ("mapPublicIpOnLaunch", "true")] := by
    show (match lookupKV "id" (outFn "aws.ec2.Vpc" "my-vpc" vpcResolvedAttrs),
        resolveAttrs
          [(("aws.ec2.Vpc", "my-vpc"),
            RState.applied vpcResolvedAttrs (outFn "aws.ec2.Vpc" "my-vpc" vpcResolvedAttrs))]
          [("cidrBlock", AttrVal.lit "10.0.1.0/24"),
           ("availabilityZone", AttrVal.lit "us-east-1a"),
           ("mapPublicIpOnLaunch", AttrVal.lit "true")] with
      | some s, some r => some (("vpcId", s) :: r)
      | _, _ => none) =
      some [("vpcId", vid), ("cidrBlock", "10.0.1.0/24"),
            ("availabilityZone", "us-east-1a"), ("mapPublicIpOnLaunch", "true")]
    rw [hid]
    rfl
  have happ : applyNode (okProvider outFn)
      [(("aws.ec2.Vpc", "my-vpc"),
        RState.applied vpcResolvedAttrs (outFn "aws.ec2.Vpc" "my-vpc" vpcResolvedAttrs))]
      subnet1Decl =
      RState.applied
        [("vpcId", vid), ("cidrBlock", "10.0.1.0/24"),
         ("availabilityZone", "us-east-1a"), ("mapPublicIpOnLaunch", "true")]
        (outFn "aws.ec2.Subnet" "my-subnet-1"
          [("vpcId", vid), ("cidrBlock", "10.0.1.0/24"),
           ("availabilityZone", "us-east-1a"), ("mapPublicIpOnLaunch", "true")]) := by
    show (match resolveAttrs
        [(("aws.ec2.Vpc", "my-vpc"),
          RState.applied vpcResolvedAttrs (outFn "aws.ec2.Vpc" "my-vpc" vpcResolvedAttrs))]
        subnet1Decl.attrs with
      | some ra =>
        match okProvider outFn "aws.ec2.Subnet" "my-subnet-1" ra with
        | Except.ok outs => RState.applied ra outs
        | Except.error _ => RState.failed
      | none => RState.failed) = _
    rw [hres]
    rfl
  refine ⟨rfl,
    [(("aws.ec2.Vpc", "my-vpc"),
      RState.applied vpcResolvedAttrs (outFn "aws.ec2.Vpc" "my-vpc" vpcResolvedAttrs)),
     (("aws.ec2.Subnet", "my-subnet-1"),
      RState.applied
        [("vpcId", vid), ("cidrBlock", "10.0.1.0/24"),
         ("availabilityZone", "us-east-1a"), ("mapPublicIpOnLaunch", "true")]
        (outFn "aws.ec2.Subnet" "my-subnet-1"
          [("vpcId", vid), ("cidrBlock", "10.0.1.0/24"),
           ("availabilityZone", "us-east-1a"), ("mapPublicIpOnLaunch", "true")]))],
    ?_,
    [("vpcId", vid), ("cidrBlock", "10.0.1.0/24"),
     ("availabilityZone", "us-east-1a"), ("mapPublicIpOnLaunch", "true")],
    outFn "aws.ec2.Subnet" "my-subnet-1"
      [("vpcId", vid), ("cidrBlock", "10.0.1.0/24"),
       ("availabilityZone", "us-east-1a"), ("mapPublicIpOnLaunch", "true")],
    ?_, rfl⟩
  · show Except.ok
      ([(("aws.ec2.Vpc", "my-vpc"),
         RState.applied vpcResolvedAttrs (outFn "aws.ec2.Vpc" "my-vpc" vpcResolvedAttrs))] ++
       [(("aws.ec2.Subnet", "my-subnet-1"),
         applyNode (okProvider outFn)
           [(("aws.ec2.Vpc", "my-vpc"),
             RState.applied vpcResolvedAttrs (outFn "aws.ec2.Vpc" "my-vpc" vpcResolvedAttrs))]
           subnet1Decl)]) = _
    rw [happ]
    rfl
  · rfl

theorem claim_C6_witness :
    computePlan vpcSubnetGraph =
      Except.ok [[("aws.ec2.Vpc", "my-vpc")], [("aws.ec2.Subnet", "my-subnet-1")]] ∧
    ∃ report, execute vpcSubnetGraph (okProvider (fun _ _ _ => [("id", "vpc-123")])) =
        Except.ok report ∧
      ∃ ra outs,
        lookupKV ("aws.ec2.Subnet", "my-subnet-1") report = some (RState.applied ra outs) ∧
        lookupKV "vpcId" ra = some "vpc-123" :=
  claim_C6 (fun _ _ _ => [("id", "vpc-123")]) "vpc-123" rfl






